import Mathlib

/-!
# Verification of the note-producing core of Music-Note-Creator

Shallow embedding, over `ℚ`, of the two note producers of the repository:

* the deterministic composition engine (`getSeededRandom`,
  `generateDeterministicNotes`) of the main application file, and
* the analytic path (`analyzeAudioSegment`, `autoCorrelate`) of
  `services/audioEngine.ts`,

together with theorems settling the frozen claims about them.

Modelling conventions:

* JS numbers are modelled by `ℚ`.  The only transcendental operation in the
  sources, `Math.round(69 + 12 * Math.log2(f / 440))`, is modelled exactly by
  `round (69 + 12 * Real.logb 2 (f / 440))` (`midiOfFreq` below).
* JS 32-bit integer operations (`>>>`, `^`, `|`, `Math.imul`) are modelled on
  `ℕ` with explicit `% 2 ^ 32`.
* The string ids built by template literals are modelled by the inductive
  `NoteId`, which records exactly the numbers interpolated into the strings;
  the string rendering is injective on that data.
* `Array.prototype.slice` / `TypedArray.prototype.slice` semantics (negative
  indices relative to the end, clamping) are modelled by `jsSlice`.
* `sampleRate / T0` with `T0 = 0` yields `Infinity` in JS (for a positive
  sample rate); this value, and the `Infinity` midi pitch it produces through
  `Math.round`, are modelled by the `ACResult.inf` constructor and by a `none`
  midi pitch.
-/

/-! ## The seeded random source (`getSeededRandom` in the App file) -/

/-- One draw of the seeded random generator.  Source:
```js
const getSeededRandom = (seed) => {
    let t = seed += 0x6D2B79F5;
    t = Math.imul(t ^ t >>> 15, t | 1);
    t ^= t + Math.imul(t ^ t >>> 7, t | 61);
    return ((t ^ t >>> 14) >>> 0) / 4294967296;
};
```
All JS bitwise operators and `Math.imul` reduce their argument modulo `2^32`
(the signed/unsigned distinction does not matter because every operation used
here is compatible with congruence mod `2^32`), so the whole computation is
carried out on `ℕ` with explicit reductions. -/
def getSeededRandom (seed : ℕ) : ℚ :=
  let t0 : ℕ := (seed + 0x6D2B79F5) % 2 ^ 32
  let t1 : ℕ := ((t0 ^^^ (t0 >>> 15)) * (t0 ||| 1)) % 2 ^ 32
  let t2 : ℕ := t0Step t1
  (((t2 ^^^ (t2 >>> 14)) : ℕ) : ℚ) / 4294967296
where
  /-- the `t ^= t + Math.imul(t ^ t >>> 7, t | 61)` step -/
  t0Step (t1 : ℕ) : ℕ :=
    t1 ^^^ ((t1 + ((t1 ^^^ (t1 >>> 7)) * (t1 ||| 61)) % 2 ^ 32) % 2 ^ 32)

/-- Modelled from the spec (§4.1): `let t = state + 0x6D2B79F5` (32-bit
wraparound); `t = (t ^ (t >>> 15)) * (t | 1)` (32-bit wraparound multiply);
`t = t ^ (t + ((t ^ (t >>> 7)) * (t | 61)))` (32-bit wraparound);
`value = ((t ^ (t >>> 14)) >>> 0) / 2^32`. -/
def specSeedStreamValue (state : ℕ) : ℚ :=
  let t0 : ℕ := (state + 0x6D2B79F5) % 2 ^ 32
  let t1 : ℕ := ((t0 ^^^ (t0 >>> 15)) * (t0 ||| 1)) % 2 ^ 32
  let t2 : ℕ := t1 ^^^ ((t1 + (t1 ^^^ (t1 >>> 7)) * (t1 ||| 61)) % 2 ^ 32)
  (((t2 ^^^ (t2 >>> 14)) : ℕ) : ℚ) / 2 ^ 32

/-- A draw with the caller's cursor-advancement policy (`seed += 1` after each
draw in the `rng` closure of `generateDeterministicNotes`). -/
def rngDraw (seed : ℕ) : ℚ × ℕ := (getSeededRandom seed, seed + 1)

/-! ## The shared output data model -/

/-- The data interpolated into a note id string.  The sources build:
`bass_${bar}_1`, `bass_${bar}_3`, `harm_${bar}_${idx}`,
`mel_${bar}_${currentBeat}_${Math.floor(rng()*100)}` (with
`currentBeat = halfBeat / 2`), and `evt_real_${Math.floor(start*1000)}_${idx}`.
The string rendering is injective on this data, so id distinctness is
faithfully expressed on `NoteId`. -/
inductive NoteId where
  | bass (bar : ℤ) (slot : ℕ)
  | harm (bar : ℤ) (idx : ℕ)
  | mel (bar : ℤ) (halfBeat : ℕ) (tag : ℕ)
  | real (ms : ℤ) (idx : ℕ)
deriving DecidableEq, Repr

/-- The NoteEvent record produced by both producers.  `midi_pitch` is
`Option ℤ`: `some` is an ordinary midi number, `none` models the JS
`Infinity` pitch which the analytic path can produce (see `midiOfFreq` and
`ACResult.inf`). -/
structure NoteEvent where
  id : NoteId
  start_time : ℚ
  duration : ℚ
  midi_pitch : Option ℤ
  velocity : ℚ
  confidence : ℚ
deriving DecidableEq, Repr

/-! ## The composition generator (`generateDeterministicNotes`) -/

/-- `videoId.split('').reduce((acc, char) => acc + char.charCodeAt(0), 0)`.
`charCodeAt` returns UTF-16 code units; for the BMP characters of a YouTube
id this is the code point. -/
def charCodeSum (videoId : String) : ℕ := (videoId.toList.map Char.toNat).sum

/-- The fixed chord-progression table `PROGRESSIONS`. -/
def PROGRESSIONS : List (List ℤ) := [[0, 4, 5, 3], [1, 4, 0, 5], [0, 5, 3, 4], [5, 3, 0, 4]]

/-- `isMinor ? [0,2,3,5,7,8,10] : [0,2,4,5,7,9,11]`. -/
def scaleIntervalsOf (isMinor : Bool) : List ℤ :=
  if isMinor then [0, 2, 3, 5, 7, 8, 10] else [0, 2, 4, 5, 7, 9, 11]

/-- ```js
const getMidiPitch = (degree, octaveOffset) => {
    const len = scaleIntervals.length;
    const oct = Math.floor(degree / len);
    const idx = ((degree % len) + len) % len;
    return rootNote + (octaveOffset * 12) + (oct * 12) + scaleIntervals[idx];
};
```
`Math.floor(degree / len)` on integers is floor division (`Int.fdiv`); the JS
remainder has the sign of the dividend, but `((d % len) + len) % len` equals
the always-nonnegative Lean `%` (`Int.emod`), which is written below. -/
def getMidiPitch (rootNote : ℤ) (scaleIntervals : List ℤ) (degree octaveOffset : ℤ) : ℤ :=
  let len : ℤ := scaleIntervals.length
  let oct : ℤ := Int.fdiv degree len
  let idx : ℤ := ((degree % len) + len) % len
  rootNote + octaveOffset * 12 + oct * 12 + scaleIntervals.getD idx.toNat 0

/-- Duration (in half-beats) decided by the melody rhythm roll:
`let duration = 1; if (rhythmRoll > 0.7) duration = 2; else if (rhythmRoll < 0.3) duration = 0.5;`
(so 2 half-beats = quarter, 4 = half, 1 = eighth). -/
def rollDurationHB (rhythmRoll : ℚ) : ℕ :=
  if rhythmRoll > 0.7 then 4 else if rhythmRoll < 0.3 then 1 else 2

theorem one_le_rollDurationHB (r : ℚ) : 1 ≤ rollDurationHB r := by
  unfold rollDurationHB; split <;> [omega; split <;> omega]

/-- The new melody degree decided by one melody-loop iteration whose play
guard passed: the chord-tone draw (cursor `s2`), the step draw (cursor
`s2 + 1`), the on-beat pull toward the chord tone, the beat-3 question/answer
override, and the two register clamps. -/
def melodyDegree (rootNote : ℤ) (scaleIntervals : List ℤ) (chordDegree lmd : ℤ)
    (isQuestion : Bool) (hb dhb : ℕ) (s2 : ℕ) : ℤ :=
  let chordTone : ℤ := chordDegree + (if getSeededRandom s2 > (0.5 : ℚ) then 0 else 2)
  let step : ℤ := if getSeededRandom (s2 + 1) > (0.5 : ℚ) then 1 else -1
  let cd0 : ℤ := lmd + step
  let cd1 : ℤ :=
    if hb % 4 = 0 then
      if cd0 < chordTone then cd0 + 1 else if cd0 > chordTone then cd0 - 1 else cd0
    else cd0
  let cd2 : ℤ :=
    if 6 ≤ hb ∧ 2 ≤ dhb then (if isQuestion then chordDegree + 4 else chordDegree) else cd1
  let cd3 : ℤ :=
    if getMidiPitch rootNote scaleIntervals cd2 0 > 84 then cd2 - 7 else cd2
  if getMidiPitch rootNote scaleIntervals cd3 0 < 60 then cd3 + 7 else cd3

/-- The melody note pushed by one melody-loop iteration whose play guard
passed (`cd4` is the degree computed by `melodyDegree`; the id draw sits at
cursor `s2 + 2`). -/
def melNote (rootNote : ℤ) (scaleIntervals : List ℤ) (BEAT_DURATION barStart : ℚ)
    (bar : ℤ) (hb dhb : ℕ) (s2 : ℕ) (cd4 : ℤ) : NoteEvent :=
  { id := .mel bar hb (⌊getSeededRandom (s2 + 2) * 100⌋).toNat
    start_time := barStart + ((hb : ℚ) / 2) * BEAT_DURATION
    duration := ((dhb : ℚ) / 2) * BEAT_DURATION * 0.9
    midi_pitch := some (getMidiPitch rootNote scaleIntervals cd4 0)
    velocity := if hb % 4 = 0 then 0.9 else 0.7
    confidence := 0.95 }

/-- The melody `while (currentBeat < 4)` loop of one bar.  `hb` is
`currentBeat` in half-beats (the loop only ever visits multiples of `0.5`);
`currentBeat % 2 === 0` becomes `hb % 4 = 0`, `currentBeat >= 3` becomes
`6 ≤ hb`, `duration >= 1` becomes `2 ≤ dhb`.  Returns the advanced seed
cursor, the final `lastMelodyDegree` and the emitted notes in push order.
The seed cursor advances by one per draw (`rngDraw`), so the draws of an
iteration sit at consecutive cursors: the rhythm roll at `seed`, the
should-play roll at `seed + 1` (skipped at beat 0, where the JS `||`
short-circuits), then — when the play guard passes — the chord-tone, step and
id draws at `s2`, `s2 + 1`, `s2 + 2`.
The swing block of the source is a no-op (it only contains comments), and
`notesInBar` is written but never read; both are omitted.
The structural `fuel` only bounds the iteration count so that the recursion
is structural: each iteration advances `hb` by at least one half-beat
(`one_le_rollDurationHB`) and the loop stops once `8 ≤ hb`, so the 8 units
of fuel supplied by `composeBar` are never exhausted. -/
def melodyLoop (rootNote : ℤ) (scaleIntervals : List ℤ) (BEAT_DURATION : ℚ)
    (startTime endTime barStart : ℚ) (bar chordDegree : ℤ) (isQuestion : Bool) :
    ℕ → ℕ → ℕ → ℤ → ℕ × ℤ × List NoteEvent
  | 0, _, seed, lastMelodyDegree => (seed, lastMelodyDegree, [])
  | fuel + 1, hb, seed, lastMelodyDegree =>
  if hb < 8 then
    let dhb : ℕ := rollDurationHB (getSeededRandom seed)
    let noteTime : ℚ := barStart + ((hb : ℚ) / 2) * BEAT_DURATION
    -- `(currentBeat === 0) || (rng() > 0.3)`: short-circuit, no draw at beat 0
    let shouldPlay : Bool :=
      if hb = 0 then true else decide (getSeededRandom (seed + 1) > (0.3 : ℚ))
    let s2 : ℕ := if hb = 0 then seed + 1 else seed + 2
    if shouldPlay ∧ noteTime ≥ startTime ∧ noteTime < endTime then
      let cd4 : ℤ := melodyDegree rootNote scaleIntervals chordDegree lastMelodyDegree
        isQuestion hb dhb s2
      let rest := melodyLoop rootNote scaleIntervals BEAT_DURATION startTime endTime barStart
        bar chordDegree isQuestion fuel (hb + dhb) (s2 + 3) cd4
      (rest.1, rest.2.1,
        melNote rootNote scaleIntervals BEAT_DURATION barStart bar hb dhb s2 cd4 :: rest.2.2)
    else
      melodyLoop rootNote scaleIntervals BEAT_DURATION startTime endTime barStart
        bar chordDegree isQuestion fuel (hb + dhb) s2 lastMelodyDegree
  else (seed, lastMelodyDegree, [])

/-- The beat-1 bass note of a bar.  Its `start_time` is the raw `barStart`,
not the clamped `bassTime`. -/
def bassNote1 (rootNote : ℤ) (scaleIntervals : List ℤ) (BEAT_DURATION barStart : ℚ)
    (bar chordDegree : ℤ) : NoteEvent :=
  { id := .bass bar 1
    start_time := barStart
    duration := BEAT_DURATION * 1.2
    midi_pitch := some (getMidiPitch rootNote scaleIntervals chordDegree (-2))
    velocity := 0.85
    confidence := 0.98 }

/-- The optional beat-3 bass note (the interval coin flip sits at cursor
`s`). -/
def bassNote2 (rootNote : ℤ) (scaleIntervals : List ℤ) (BEAT_DURATION barStart : ℚ)
    (bar chordDegree : ℤ) (s : ℕ) : NoteEvent :=
  { id := .bass bar 3
    start_time := barStart + BEAT_DURATION * 2
    duration := BEAT_DURATION
    midi_pitch := some (getMidiPitch rootNote scaleIntervals
      (chordDegree + (if getSeededRandom s > (0.5 : ℚ) then 4 else 0)) (-2))
    velocity := 0.75
    confidence := 0.9 }

/-- The strummed harmony triad of a bar (root, 3rd, 5th above the chord
degree, each delayed by `idx * 0.03` and filtered to the window). -/
def harmChord (rootNote : ℤ) (scaleIntervals : List ℤ) (BEAT_DURATION : ℚ)
    (startTime endTime barStart : ℚ) (bar chordDegree : ℤ) (intensity : ℚ) :
    List NoteEvent :=
  (([0, 2, 4] : List ℤ).enum).filterMap (fun p =>
    let time : ℚ := barStart + BEAT_DURATION + (p.1 : ℚ) * 0.03
    if time ≥ startTime ∧ time < endTime then
      some { id := .harm bar p.1
             start_time := time
             duration := BEAT_DURATION * 2
             midi_pitch := some (getMidiPitch rootNote scaleIntervals (chordDegree + p.2) (-1))
             velocity := 0.4 + intensity * 0.2
             confidence := 0.85 }
    else none)

/-- One iteration of the bar loop of `generateDeterministicNotes`: the bass,
harmony and melody layers of the bar, in push order, threading the seed
cursor and `lastMelodyDegree`.  The bass draws sit at cursors `seed` (the
60% roll) and `seed + 1` (the interval flip), the harmony intensity draw at
the advanced cursor `bassRes.1`, and the melody loop starts right after. -/
def composeBar (rootNote : ℤ) (scaleIntervals : List ℤ) (progression : List ℤ)
    (BEAT_DURATION BAR_DURATION : ℚ) (startTime endTime : ℚ) (bar : ℤ)
    (seed : ℕ) (lastMelodyDegree : ℤ) : ℕ × ℤ × List NoteEvent :=
  let barStart : ℚ := (bar : ℚ) * BAR_DURATION
  -- `progression[bar % 4]`; for the bars `0 ≤ bar` reached by the theorems
  -- below this equals the JS access (JS `%` differs from `Int.emod` only for
  -- negative `bar`, where the JS code reads `undefined`).
  let chordDegree : ℤ := progression.getD ((bar % 4).toNat) 0
  -- Layer A: bass
  let bassTime : ℚ := max startTime barStart
  let bassRes : ℕ × List NoteEvent :=
    if bassTime < endTime then
      if getSeededRandom seed > (0.4 : ℚ) then
        if barStart + BEAT_DURATION * 2 ≥ startTime ∧ barStart + BEAT_DURATION * 2 < endTime then
          (seed + 2, [bassNote1 rootNote scaleIntervals BEAT_DURATION barStart bar chordDegree,
            bassNote2 rootNote scaleIntervals BEAT_DURATION barStart bar chordDegree (seed + 1)])
        else (seed + 1, [bassNote1 rootNote scaleIntervals BEAT_DURATION barStart bar chordDegree])
      else (seed + 1, [bassNote1 rootNote scaleIntervals BEAT_DURATION barStart bar chordDegree])
    else (seed, [])
  -- Layer B: harmony
  let harmNotes : List NoteEvent :=
    if getSeededRandom bassRes.1 > (0.3 : ℚ) then
      harmChord rootNote scaleIntervals BEAT_DURATION startTime endTime barStart bar
        chordDegree (getSeededRandom bassRes.1)
    else []
  -- Layer C: melody
  let isQuestion : Bool := decide (bar % 2 = 0)
  let mel := melodyLoop rootNote scaleIntervals BEAT_DURATION startTime endTime barStart
    bar chordDegree isQuestion 8 0 (bassRes.1 + 1) lastMelodyDegree
  (mel.1, mel.2.1, bassRes.2 ++ harmNotes ++ mel.2.2)

/-- The global parameters of one `generateDeterministicNotes` call, derived
once from the seed. -/
structure ComposeParams where
  rootNote : ℤ
  scaleIntervals : List ℤ
  progression : List ℤ
  BEAT_DURATION : ℚ
  BAR_DURATION : ℚ
  /-- the seed cursor after the five setup draws -/
  seedAfterSetup : ℕ

/-- The setup draws of `generateDeterministicNotes`, in source order:
BPM, swing feel, scale mode, root note, progression. -/
def composeParams (videoId : String) : ComposeParams :=
  let s0 : ℕ := charCodeSum videoId
  let (v1, s1) := rngDraw s0
  let BPM : ℤ := 80 + ⌊v1 * 50⌋
  let BEAT_DURATION : ℚ := 60 / (BPM : ℚ)
  let BAR_DURATION : ℚ := BEAT_DURATION * 4
  let (v2, s2) := rngDraw s1
  let _SWING_FEEL : Bool := decide (v2 > (0.6 : ℚ)) -- drawn; only feeds the no-op swing block
  let (v3, s3) := rngDraw s2
  let isMinor : Bool := decide (v3 > (0.5 : ℚ))
  let (v4, s4) := rngDraw s3
  let rootNote : ℤ := 58 + ⌊v4 * 12⌋
  let scaleIntervals : List ℤ := scaleIntervalsOf isMinor
  let (v5, s5) := rngDraw s4
  let progression : List ℤ := PROGRESSIONS.getD (⌊v5 * (PROGRESSIONS.length : ℚ)⌋).toNat []
  ⟨rootNote, scaleIntervals, progression, BEAT_DURATION, BAR_DURATION, s5⟩

/-- The bar loop of `generateDeterministicNotes`, threading the seed cursor
and `lastMelodyDegree` and accumulating the pushed notes. -/
def composeBarsFold (P : ComposeParams) (startTime endTime : ℚ) :
    List ℤ → ℕ × ℤ × List NoteEvent → ℕ × ℤ × List NoteEvent
  | [], st => st
  | bar :: bars, st =>
      composeBarsFold P startTime endTime bars
        ((composeBar P.rootNote P.scaleIntervals P.progression P.BEAT_DURATION
            P.BAR_DURATION startTime endTime bar st.1 st.2.1).1,
         (composeBar P.rootNote P.scaleIntervals P.progression P.BEAT_DURATION
            P.BAR_DURATION startTime endTime bar st.1 st.2.1).2.1,
         st.2.2 ++ (composeBar P.rootNote P.scaleIntervals P.progression P.BEAT_DURATION
            P.BAR_DURATION startTime endTime bar st.1 st.2.1).2.2)

/-- The bar range `[⌊startTime / barDuration⌋, ⌈endTime / barDuration⌉)` of a
call. -/
def composeBarRange (P : ComposeParams) (startTime endTime : ℚ) : List ℤ :=
  let startBar : ℤ := ⌊startTime / P.BAR_DURATION⌋
  let endBar : ℤ := ⌈endTime / P.BAR_DURATION⌉
  (List.range (endBar - startBar).toNat).map (fun (k : ℕ) => startBar + (k : ℤ))

/-- `generateDeterministicNotes(videoId, startTime, endTime)`: the seed-derived
global parameters, the bar loop, and the final stable sort by `start_time`. -/
def generateDeterministicNotes (videoId : String) (startTime endTime : ℚ) : List NoteEvent :=
  let P := composeParams videoId
  let res := composeBarsFold P startTime endTime (composeBarRange P startTime endTime)
    (P.seedAfterSetup, 0, [])
  res.2.2.mergeSort (fun a b => a.start_time ≤ b.start_time)

/-- `composeNotes` is the producer name the spec (§6) gives to the
deterministic composition engine. -/
def composeNotes (seed : String) (startTime endTime : ℚ) : List NoteEvent :=
  generateDeterministicNotes seed startTime endTime

/-! ## The analytic path (`audioEngine.ts`) -/

/-- `Array.prototype.slice` / `TypedArray.prototype.slice` index semantics:
a negative index is relative to the end; both indices are clamped to
`[0, length]`; the result is the elements of `[start, stop)`. -/
def jsSlice (l : List ℚ) (start stop : ℤ) : List ℚ :=
  let len : ℤ := l.length
  let s : ℤ := if start < 0 then max (len + start) 0 else min start len
  let e : ℤ := if stop < 0 then max (len + stop) 0 else min stop len
  (l.take e.toNat).drop s.toNat

/-- `let sumSq = 0; for (...) sumSq += x * x;` -/
def sumOfSquares (l : List ℚ) : ℚ := l.foldl (fun acc x => acc + x * x) 0

/-- The test `Math.sqrt(sumSq / len) < t` of the sources, carried out on `ℚ`:
for `0 < t` and a nonempty chunk, `Real.sqrt (sumSq / len) < t` iff
`sumSq / len < t ^ 2` (see `rmsBelow_iff_sqrt_lt`); for the empty chunk the JS
expression is `NaN < t`, which is false. -/
def rmsBelow (chunk : List ℚ) (t : ℚ) : Bool :=
  if chunk.length = 0 then false
  else decide (sumOfSquares chunk / (chunk.length : ℚ) < t ^ 2)

/-- The result of `autoCorrelate`: `-1` (`noSignal`), the frequency
`sampleRate / T0` for `T0 ≥ 1`, or `sampleRate / 0`, which for the positive
sample rates of the theorems below is the JS value `Infinity` (`inf`). -/
inductive ACResult where
  | noSignal
  | inf
  | freq (f : ℚ)
deriving DecidableEq, Repr

/-- `let r1 = 0; for (let i = 0; i < SIZE / 2; i++) if (Math.abs(buffer[i]) < thres) { r1 = i; break; }`
(the loop runs for the `i` with `2 * i < SIZE`, i.e. `i < (SIZE + 1) / 2`). -/
def trimLeft (buffer : List ℚ) : ℕ :=
  ((List.range ((buffer.length + 1) / 2)).find?
    (fun i => decide (|buffer.getD i 0| < (0.2 : ℚ)))).getD 0

/-- `let r2 = SIZE - 1; for (let i = 1; i < SIZE / 2; i++) if (Math.abs(buffer[SIZE - i]) < thres) { r2 = SIZE - i; break; }`
For `SIZE = 0` the JS default is `r2 = -1`, and `buffer.slice(r1, -1)` on the
empty buffer is `[]`; the `ℕ` value `0 - 1 = 0` below gives the same empty
slice. -/
def trimRight (buffer : List ℚ) : ℕ :=
  match (List.range' 1 ((buffer.length + 1) / 2 - 1)).find?
      (fun i => decide (|buffer.getD (buffer.length - i) 0| < (0.2 : ℚ))) with
  | some i => buffer.length - i
  | none => buffer.length - 1

/-- `c[i] = Σ_{j < len - i} buffer2[j] * buffer2[j + i]`. -/
def corrAt (b2 : List ℚ) (i : ℕ) : ℚ :=
  ((List.range (b2.length - i)).map (fun j => b2.getD j 0 * b2.getD (j + i) 0)).sum

/-- The autocorrelation array `c`. -/
def corrList (b2 : List ℚ) : List ℚ := (List.range b2.length).map (corrAt b2)

/-- `let d = 0; while (c[d] > c[d + 1]) d++;`
An out-of-range JS access yields `undefined` and any comparison with
`undefined` is false, which is how the loop stops at the array end; the
`Option`-valued accesses below model exactly that. -/
def dLoopAux (c : List ℚ) : ℕ → ℕ → ℕ
  | 0, d => d
  | fuel + 1, d =>
    match c.get? d, c.get? (d + 1) with
    | some x, some y => if x > y then dLoopAux c fuel (d + 1) else d
    | _, _ => d

/-- The `while` loop starting at `d = 0`.  Each continuing iteration requires
`c[d + 1]` to be in range, so at most `c.length` iterations happen and the
structural fuel `c.length + 1` is never exhausted. -/
def dLoop (c : List ℚ) : ℕ := dLoopAux c (c.length + 1) 0

/-- `let maxval = -1, maxpos = -1; for (let i = d; i < buffer2.length; i++) if (c[i] > maxval) { maxval = c[i]; maxpos = i; }` -/
def maxPosFrom (c : List ℚ) (d : ℕ) : ℚ × ℤ :=
  (List.range' d (c.length - d)).foldl
    (fun acc i => if c.getD i 0 > acc.1 then (c.getD i 0, (i : ℤ)) else acc)
    (-1, -1)

/-- `autoCorrelate(buffer, sampleRate)` of `audioEngine.ts`:
RMS gate at `0.01`, trim at amplitude `0.2`, autocorrelation, first
non-decreasing lag `d`, arg-max lag `T0`, and the final
`if (T0 === -1) return -1; return sampleRate / T0;` — with `T0 = 0`
(which the code does not exclude) encoded as `ACResult.inf`. -/
def autoCorrelate (buffer : List ℚ) (sampleRate : ℚ) : ACResult :=
  if rmsBelow buffer (0.01 : ℚ) then .noSignal
  else
    let r1 := trimLeft buffer
    let r2 := trimRight buffer
    let buffer2 := jsSlice buffer (r1 : ℤ) (r2 : ℤ)
    let c := corrList buffer2
    let d := dLoop c
    let T0 : ℤ := (maxPosFrom c d).2
    if T0 = -1 then .noSignal
    else if T0 = 0 then .inf
    else .freq (sampleRate / (T0 : ℚ))

/-- `Math.round(69 + 12 * Math.log2(frequency / 440))`.  `Math.round` rounds
half-way cases toward `+∞`, exactly as Mathlib's `round`. -/
noncomputable def midiOfFreq (f : ℚ) : ℤ :=
  round ((69 : ℝ) + 12 * Real.logb 2 ((f : ℝ) / 440))

/-- The comparison `Math.abs(midiPitch - currentNotePitch) > 1` on the JS
numbers modelled by `Option ℤ` (`none` = `Infinity`):
`|Infinity - k| = Infinity > 1` is true, `|Infinity - Infinity| = NaN > 1`
is false. -/
def pitchJump (newPitch oldPitch : Option ℤ) : Bool :=
  match newPitch, oldPitch with
  | some a, some b => decide (1 < |a - b|)
  | none, some _ => true
  | some _, none => true
  | none, none => false

/-- A note pushed on the `notes` array of `analyzeAudioSegment` before the
final mapping to the output shape. -/
structure RawNote where
  start : ℚ
  duration : ℚ
  pitch : Option ℤ
  confidence : ℚ
deriving DecidableEq, Repr

/-- The per-window mutable state of the `analyzeAudioSegment` sweep:
`currentNoteStart` (`-1` when no note is open), `currentNotePitch`
(initially `-1`; `none` models an `Infinity` pitch), `framesInNote`, and the
accumulated pushed notes. -/
structure SegState where
  currentNoteStart : ℤ
  currentNotePitch : Option ℤ
  framesInNote : ℕ
  rawNotes : List RawNote
deriving DecidableEq, Repr

/-- The initial sweep state. -/
def initSegState : SegState := ⟨-1, some (-1), 0, []⟩

/-- The `frequency > 0` test of the sweep on an `autoCorrelate` result:
`-1 > 0` is false, `Infinity > 0` is true. -/
def acVoiced : ACResult → Bool
  | .noSignal => false
  | .inf => true
  | .freq f => decide (0 < f)

/-- The `midiPitch` computed from a voiced `autoCorrelate` result:
`Math.round(69 + 12 * Math.log2(frequency / 440))`, which is `Infinity`
(`none`) when the frequency is `Infinity`. -/
noncomputable def acMidi : ACResult → Option ℤ
  | .freq f => some (midiOfFreq f)
  | _ => none

/-- The voiced part (`if (frequency > 0) { … }`) of the sweep loop body,
with `fr` the value the source binds as `frequency`. -/
noncomputable def segStepVoiced (sampleRate startTime : ℚ) (st : SegState) (i : ℕ)
    (fr : ACResult) : SegState :=
  if acVoiced fr then
    if st.currentNoteStart = -1 then
      { st with currentNoteStart := (i : ℤ), currentNotePitch := acMidi fr, framesInNote := 1 }
    else if pitchJump (acMidi fr) st.currentNotePitch then
      { currentNoteStart := (i : ℤ)
        currentNotePitch := acMidi fr
        framesInNote := 1
        rawNotes :=
          if st.framesInNote > 4 then
            st.rawNotes ++ [⟨startTime + (st.currentNoteStart : ℚ) / sampleRate,
              ((i : ℚ) - (st.currentNoteStart : ℚ)) / sampleRate,
              st.currentNotePitch, 0.85⟩]
          else st.rawNotes }
    else
      { st with framesInNote := st.framesInNote + 1 }
  else st

/-- The body of the sweep loop of `analyzeAudioSegment` for the window
starting at sample `i` with content `chunk`. -/
noncomputable def segStep (sampleRate startTime : ℚ) (st : SegState) (i : ℕ)
    (chunk : List ℚ) : SegState :=
  if rmsBelow chunk (0.02 : ℚ) then
    -- silence: close the previous note (if stable enough), reset the state
    if st.currentNoteStart ≠ -1 then
      { currentNoteStart := -1
        currentNotePitch := st.currentNotePitch
        framesInNote := 0
        rawNotes :=
          if st.framesInNote > 4 then
            st.rawNotes ++ [⟨startTime + (st.currentNoteStart : ℚ) / sampleRate,
              ((i : ℚ) - (st.currentNoteStart : ℚ)) / sampleRate,
              st.currentNotePitch, 0.8⟩]
          else st.rawNotes }
    else st
  else
    segStepVoiced sampleRate startTime st i (autoCorrelate chunk sampleRate)

/-- The window start offsets of the sweep: `for (let i = 0; i < segmentData.length - windowSize; i += hopSize)`
with `windowSize = 2048`, `hopSize = 1024` (the bound is strict, and no
window starts when the slice is not longer than one window). -/
def windowStarts (segLen : ℕ) : List ℕ :=
  let numWindows : ℕ := if segLen ≤ 2048 then 0 else (segLen - 2048 + 1023) / 1024
  (List.range numWindows).map (· * 1024)

/-- The segment slice
`channelData.slice(Math.max(0, startSample), Math.min(channelData.length, endSample))`
with `startSample = ⌊startTime·sampleRate⌋` and
`endSample = ⌊(startTime + duration)·sampleRate⌋`. -/
def segmentSlice (channelData : List ℚ) (sampleRate startTime duration : ℚ) : List ℚ :=
  let startSample : ℤ := ⌊startTime * sampleRate⌋
  let endSample : ℤ := ⌊(startTime + duration) * sampleRate⌋
  jsSlice channelData (max 0 startSample) (min (channelData.length : ℤ) endSample)

/-- The windows the sweep visits, with their start offsets:
`segmentData.slice(i, i + windowSize)` for each `i` of `windowStarts`. -/
def sweepChunks (channelData : List ℚ) (sampleRate startTime duration : ℚ) :
    List (ℕ × List ℚ) :=
  (windowStarts (segmentSlice channelData sampleRate startTime duration).length).map
    (fun i => (i, jsSlice (segmentSlice channelData sampleRate startTime duration)
      (i : ℤ) ((i : ℤ) + 2048)))

/-- `analyzeAudioSegment(audioBuffer, startTime, duration)` of
`audioEngine.ts`, with the buffer's channel data and sample rate passed
explicitly.  The segment slice, the sweep, the final forced close, and the
mapping to `NoteEvent`s. -/
noncomputable def analyzeAudioSegment (channelData : List ℚ)
    (sampleRate startTime duration : ℚ) : List NoteEvent :=
  let segmentData := segmentSlice channelData sampleRate startTime duration
  let chunks := sweepChunks channelData sampleRate startTime duration
  let final := chunks.foldl (fun st p => segStep sampleRate startTime st p.1 p.2) initSegState
  let rawAll : List RawNote :=
    if final.currentNoteStart ≠ -1 ∧ final.framesInNote > 4 then
      final.rawNotes ++ [⟨startTime + (final.currentNoteStart : ℚ) / sampleRate,
        ((segmentData.length : ℚ) - (final.currentNoteStart : ℚ)) / sampleRate,
        final.currentNotePitch, 0.85⟩]
    else final.rawNotes
  rawAll.enum.map (fun (p : ℕ × RawNote) =>
    { id := .real ⌊p.2.start * 1000⌋ p.1
      start_time := p.2.start
      duration := max 0.1 p.2.duration
      midi_pitch := p.2.pitch
      velocity := 0.7
      confidence := p.2.confidence })

/-- `detectNotes` is the producer name the spec (§6) gives to the analytic
path. -/
noncomputable def detectNotes (channelData : List ℚ)
    (sampleRate startTimeOffset duration : ℚ) : List NoteEvent :=
  analyzeAudioSegment channelData sampleRate startTimeOffset duration

/-- The "musical content" of a note: every field except the id. -/
def noteContent (n : NoteEvent) : ℚ × ℚ × Option ℤ × ℚ × ℚ :=
  (n.start_time, n.duration, n.midi_pitch, n.velocity, n.confidence)

/-- The bar number interpolated into a compositional note id (`0` for the
analytic `real` ids, which the composition engine never produces). -/
def idBar : NoteId → ℤ
  | .bass b _ => b
  | .harm b _ => b
  | .mel b _ _ => b
  | .real _ _ => 0

/-- The invariant the sweep of `analyzeAudioSegment` maintains: the pushed
notes are sorted by start, every pushed note starts no later than
`startTime + m / sampleRate` (`m` bounds the window offsets seen so far), and
an open note was opened at a nonnegative offset at most `m`, no earlier than
any pushed note. -/
def segInv (sampleRate startTime : ℚ) (m : ℤ) (st : SegState) : Prop :=
  st.rawNotes.Pairwise (fun a b => a.start ≤ b.start) ∧
  (∀ n ∈ st.rawNotes, n.start ≤ startTime + (m : ℚ) / sampleRate) ∧
  (st.currentNoteStart ≠ -1 →
    0 ≤ st.currentNoteStart ∧ st.currentNoteStart ≤ m ∧
    ∀ n ∈ st.rawNotes, n.start ≤ startTime + (st.currentNoteStart : ℚ) / sampleRate)

/-! ## Helper facts and claim theorems -/

attribute [local semireducible] Rat.add Rat.mul Rat.inv Rat.sub Rat.ofScientific List.mergeSort List.merge

theorem getSeededRandom_num_lt (seed : ℕ) :
    ∃ n : ℕ, n < 2 ^ 32 ∧ getSeededRandom seed = (n : ℚ) / 4294967296 := by
  refine ⟨_, ?_, rfl⟩
  have h32 : (0:ℕ) < 2 ^ 32 := by norm_num
  set t0 : ℕ := (seed + 0x6D2B79F5) % 2 ^ 32 with ht0
  set t1 : ℕ := ((t0 ^^^ (t0 >>> 15)) * (t0 ||| 1)) % 2 ^ 32 with ht1
  have h1 : t1 < 2 ^ 32 := Nat.mod_lt _ h32
  have h2 : getSeededRandom.t0Step t1 < 2 ^ 32 :=
    Nat.xor_lt_two_pow h1 (Nat.mod_lt _ h32)
  exact Nat.xor_lt_two_pow h2
    (lt_of_le_of_lt (by rw [Nat.shiftRight_eq_div_pow]; exact Nat.div_le_self _ _) h2)

/-- C9: a draw of the seeded random source always lies in `[0, 1)`; it is a
pure function of the integer state (the embedding is a function, so identical
states give identical values by definition); and it computes exactly the
32-bit mixing sequence the spec describes — xor-shift by 15, or-1 wraparound
multiply, the add/xor step with or-61, xor-shift by 14, then division by
`2^32` (`specSeedStreamValue`, written from the spec's words). -/
theorem getSeededRandom_in_unit_and_matches_spec (state : ℕ) :
    0 ≤ getSeededRandom state ∧ getSeededRandom state < 1 ∧
      getSeededRandom state = specSeedStreamValue state := by
  obtain ⟨n, hn, hval⟩ := getSeededRandom_num_lt state
  refine ⟨?_, ?_, ?_⟩
  · rw [hval]; positivity
  · rw [hval, div_lt_one (by norm_num)]
    exact_mod_cast lt_of_lt_of_le hn (by norm_num)
  · show getSeededRandom state = specSeedStreamValue state
    unfold getSeededRandom specSeedStreamValue getSeededRandom.t0Step
    norm_num [Nat.add_mod, Nat.mod_mod]

/-- C4: refuted on the code — the pitch estimator can take the final division
with `T0 = 0`.  On the frame `[1, 0, 0, 0]` (RMS `√(1/2) ≥ 0.01`, trimmed
sub-frame `[0, 0]`, all-zero autocorrelation), the first-non-decreasing-lag
loop stops at `d = 0` and the arg-max scan picks `maxpos = 0`, so the code
computes `sampleRate / 0 = Infinity` (`ACResult.inf`): the returned value is
neither the `-1` sentinel nor a finite frequency. -/
theorem autoCorrelate_reaches_T0_zero :
    autoCorrelate [1, 0, 0, 0] 44100 = ACResult.inf ∧
      ACResult.inf ≠ ACResult.noSignal ∧ ∀ f : ℚ, ACResult.inf ≠ ACResult.freq f := by
  refine ⟨by decide, by decide, fun f => by simp⟩

theorem midiOfFreq_44100 : midiOfFreq 44100 = 149 := by
  unfold midiOfFreq
  have hc : (((44100 : ℚ) : ℝ) / 440) = (2205 / 22 : ℝ) := by norm_num
  rw [hc]
  have hy : (0 : ℝ) < 2205 / 22 := by norm_num
  have hlog2 : (0 : ℝ) < Real.log 2 := Real.log_pos (by norm_num)
  have h1 : ((2 : ℝ)) ^ (159 : ℕ) ≤ (2205 / 22) ^ (24 : ℕ) := by norm_num
  have h2 : ((2205 / 22 : ℝ)) ^ (24 : ℕ) < 2 ^ (161 : ℕ) := by norm_num
  have l1 : (159 : ℝ) * Real.log 2 ≤ 24 * Real.log (2205 / 22) := by
    have h := (Real.log_le_log_iff (by positivity) (by positivity)).mpr h1
    rwa [Real.log_pow, Real.log_pow] at h
  have l2 : (24 : ℝ) * Real.log (2205 / 22) < 161 * Real.log 2 := by
    have h := Real.log_lt_log (by positivity) h2
    rwa [Real.log_pow, Real.log_pow] at h
  have hb1 : (159 : ℝ) / 24 ≤ Real.logb 2 (2205 / 22) := by
    rw [Real.logb, div_le_div_iff₀ (by norm_num) hlog2]
    linarith
  have hb2 : Real.logb 2 (2205 / 22) < (161 : ℝ) / 24 := by
    rw [Real.logb, div_lt_div_iff₀ hlog2 (by norm_num)]
    linarith
  rw [round_eq, Int.floor_eq_iff]
  constructor
  · push_cast; linarith
  · push_cast; linarith

/-- C3: refuted on the analytic path — the Hz→MIDI conversion is not bounded
by 127 for every frequency the pitch tracker can return.  On the frame
`[1, 0, 1/2, 0]` at sample rate 44100 the tracker's arg-max lag is `T0 = 1`,
so it returns 44100 Hz; the conversion
`Math.round(69 + 12·log2(44100/440))` (`midiOfFreq`) gives 149, outside
0–127, and this is the `midi_pitch` the segmenter stores for such windows.
(The compositional path is unaffected: its pitches come from `getMidiPitch`.) -/
theorem analytic_midi_pitch_out_of_range :
    autoCorrelate [1, 0, 1/2, 0] 44100 = ACResult.freq 44100 ∧
      midiOfFreq 44100 = 149 ∧ ¬ (midiOfFreq 44100 ≤ 127) := by
  refine ⟨by decide, midiOfFreq_44100, ?_⟩
  rw [midiOfFreq_44100]; norm_num

theorem segStep_unvoiced_id (sampleRate startTime : ℚ) (st : SegState) (i : ℕ)
    (chunk : List ℚ) (hrms : rmsBelow chunk (0.02 : ℚ) = false)
    (hac : autoCorrelate chunk sampleRate = ACResult.noSignal) :
    segStep sampleRate startTime st i chunk = st := by
  unfold segStep segStepVoiced
  rw [hrms, hac]
  simp [acVoiced]

/-- C10: an analysis window whose RMS is at or above the 0.02 silence
threshold (`rmsBelow … = false`) but for which the pitch estimator returns
the unvoiced sentinel leaves the entire open-note state — start index, held
pitch, accrued frame count, and the emitted notes — unchanged; stated for a
whole run of consecutive such windows, so an open note survives arbitrarily
many of them and they never count toward the more-than-4-frames threshold. -/
theorem unvoiced_windows_preserve_state (sampleRate startTime : ℚ)
    (ws : List (ℕ × List ℚ)) (st : SegState)
    (h : ∀ p ∈ ws, rmsBelow p.2 (0.02 : ℚ) = false ∧
      autoCorrelate p.2 sampleRate = ACResult.noSignal) :
    ws.foldl (fun st p => segStep sampleRate startTime st p.1 p.2) st = st := by
  induction ws generalizing st with
  | nil => rfl
  | cons p ws ih =>
    rw [List.foldl_cons]
    rw [segStep_unvoiced_id _ _ _ _ _ (h p (by simp)).1 (h p (by simp)).2]
    exact ih _ (fun q hq => h q (by simp [hq]))

theorem unvoiced_windows_preserve_state_witness :
    ([((0 : ℕ), [(1 : ℚ), 1/10, -20, 1]), ((1024 : ℕ), [(1 : ℚ), 1/10, -20, 1])].foldl
      (fun st p => segStep 44100 0 st p.1 p.2) ⟨(5 : ℤ), some 60, 3, []⟩) =
      ⟨(5 : ℤ), some 60, 3, []⟩ :=
  unvoiced_windows_preserve_state 44100 0 _ _ (by
    intro p hp
    simp only [List.mem_cons, List.not_mem_nil, or_false] at hp
    rcases hp with h | h <;> subst h <;> exact ⟨by decide, by decide⟩)

/-- C5: refuted on the code — when the optional second bass note is emitted
with the `interval = 0` branch of the coin flip, its pitch is
`getMidiPitch(chordDegree + 0, -2)`, i.e. the very same pitch as the bar's
beat-1 bass note (a unison, 0 semitones above), not an octave above it; the
code's own comment says "Play 5th or Octave".  Concretely, for seed "a" and
window `[0, 5/2)` both bass notes of bar 0 carry midi pitch 36, while the
claimed velocity 0.75 and confidence 0.90 do hold. -/
theorem second_bass_note_is_unison_not_octave :
    ∃ n1 ∈ composeNotes "a" 0 (5/2), ∃ n2 ∈ composeNotes "a" 0 (5/2),
      n1.id = .bass 0 1 ∧ n2.id = .bass 0 3 ∧
      n1.midi_pitch = some 36 ∧ n2.midi_pitch = some 36 ∧
      n2.velocity = 0.75 ∧ n2.confidence = 0.9 := by decide

/-- C2 counterexample: `composeNotes "a" 1 2` emits the beat-1 bass note of
bar 0 with `start_time = 0`, below the window start 1 — the first bass note
of a bar is pushed with the unclamped `start_time: barStart` whenever
`max(startTime, barStart) < endTime`. -/
theorem compose_emits_note_before_window_start :
    ∃ n ∈ composeNotes "a" 1 2, n.id = .bass 0 1 ∧ n.start_time = 0 ∧ n.start_time < 1 := by
  decide

theorem segStep_silent_closed (sampleRate startTime : ℚ) (st : SegState) (i : ℕ)
    (chunk : List ℚ)
    (hrms : rmsBelow chunk (0.02 : ℚ) = true) (hst : st.currentNoteStart = -1) :
    segStep sampleRate startTime st i chunk = st := by
  unfold segStep
  rw [hrms]
  simp [hst]

theorem silent_fold_fixed (sampleRate startTime : ℚ) (ws : List (ℕ × List ℚ)) (st : SegState)
    (h : ∀ p ∈ ws, rmsBelow p.2 (0.02 : ℚ) = true) (hst : st.currentNoteStart = -1) :
    ws.foldl (fun st p => segStep sampleRate startTime st p.1 p.2) st = st := by
  induction ws generalizing st with
  | nil => rfl
  | cons p ws ih =>
    rw [List.foldl_cons]
    rw [segStep_silent_closed _ _ _ _ _ (h p (by simp)) hst]
    exact ih _ (fun q hq => h q (by simp [hq])) hst

/-- C7: whenever every analysis window visited by the sweep has RMS below the
0.02 silence threshold — which covers the empty buffer, any buffer of at most
one window (no window is visited at all), and any all-zero buffer — the
segmenter returns the empty list; the embedding is a total function, so no
exception is possible. -/
theorem silent_windows_give_empty (channelData : List ℚ)
    (sampleRate startTimeOffset duration : ℚ)
    (h : ∀ p ∈ sweepChunks channelData sampleRate startTimeOffset duration,
      rmsBelow p.2 (0.02 : ℚ) = true) :
    detectNotes channelData sampleRate startTimeOffset duration = [] := by
  have hfold := silent_fold_fixed sampleRate startTimeOffset _ initSegState h rfl
  unfold detectNotes analyzeAudioSegment
  simp only [initSegState] at hfold
  simp only [initSegState, hfold]
  simp

theorem foldl_addsq_replicate (n : ℕ) (x a : ℚ) :
    (List.replicate n x).foldl (fun acc y => acc + y * y) a = a + n * (x * x) := by
  induction n generalizing a with
  | zero => simp
  | succ n ih => rw [List.replicate_succ, List.foldl_cons, ih]; push_cast; ring

theorem sumOfSquares_replicate (n : ℕ) (x : ℚ) :
    sumOfSquares (List.replicate n x) = n * (x * x) := by
  unfold sumOfSquares
  rw [foldl_addsq_replicate, zero_add]

theorem silent_windows_give_empty_witness :
    detectNotes (List.replicate 3000 0) 1 0 3000 = [] := by
  apply silent_windows_give_empty
  intro p hp
  have hseg : segmentSlice (List.replicate 3000 (0 : ℚ)) 1 0 3000 = List.replicate 3000 0 := by
    unfold segmentSlice jsSlice
    norm_num
    rfl
  unfold sweepChunks at hp
  rw [hseg] at hp
  simp only [List.length_replicate] at hp
  have hws : windowStarts 3000 = [0] := by decide
  rw [hws] at hp
  simp only [List.map_cons, List.map_nil, List.mem_singleton] at hp
  subst hp
  have hsl : jsSlice (List.replicate 3000 (0 : ℚ)) (((0 : ℕ) : ℤ)) (((0 : ℕ) : ℤ) + 2048) =
      List.replicate 2048 0 := by
    unfold jsSlice
    norm_num [List.take_replicate]
    rfl
  simp only [hsl]
  unfold rmsBelow
  rw [sumOfSquares_replicate]
  norm_num

theorem getD_replicate_of_lt {i n : ℕ} (h : i < n) (x d : ℚ) :
    (List.replicate n x).getD i d = x := by
  simp [List.getD_eq_getElem?_getD, List.getElem?_replicate, h]

theorem jsSlice_replicate_window (m i w : ℕ) (h : i + w ≤ m) (x : ℚ) :
    jsSlice (List.replicate m x) (i : ℤ) ((i : ℤ) + (w : ℤ)) = List.replicate w x := by
  unfold jsSlice
  have h1 : ¬ ((i : ℤ) < 0) := by omega
  have h2 : ¬ ((i : ℤ) + (w : ℤ) < 0) := by omega
  simp only [List.length_replicate, if_neg h1, if_neg h2]
  have hiw : ((i : ℤ) + (w : ℤ)) = ((i + w : ℕ) : ℤ) := by push_cast; ring
  have hmin1 : min ((i : ℤ) + (w : ℤ)) (m : ℤ) = ((i + w : ℕ) : ℤ) := by
    rw [hiw]; exact min_eq_left (by exact_mod_cast h)
  have hmin2 : min (i : ℤ) (m : ℤ) = (i : ℤ) :=
    min_eq_left (by exact_mod_cast le_trans (Nat.le_add_right i w) h)
  rw [hmin1, hmin2, Int.toNat_natCast, Int.toNat_natCast, List.take_replicate, List.drop_replicate]
  congr 1
  omega

theorem rmsBelow_replicate_half_002 :
    rmsBelow (List.replicate 2048 (1/2 : ℚ)) (0.02 : ℚ) = false := by
  unfold rmsBelow
  rw [sumOfSquares_replicate]
  norm_num

theorem rmsBelow_replicate_half_001 :
    rmsBelow (List.replicate 2048 (1/2 : ℚ)) (0.01 : ℚ) = false := by
  unfold rmsBelow
  rw [sumOfSquares_replicate]
  norm_num

theorem find?_range_none {p : ℕ → Bool} {k : ℕ} (h : ∀ i < k, p i = false) :
    (List.range k).find? p = none :=
  List.find?_eq_none.mpr (by intro x hx; simp only [List.mem_range] at hx; simp [h x hx])

theorem find?_range'_none {p : ℕ → Bool} {s k : ℕ} (h : ∀ i, s ≤ i → i < s + k → p i = false) :
    (List.range' s k).find? p = none :=
  List.find?_eq_none.mpr (by
    intro x hx
    rw [List.mem_range'_1] at hx
    simp [h x hx.1 hx.2])

theorem trimLeft_replicate (n : ℕ) (x : ℚ) (hx : (0.2 : ℚ) ≤ |x|) :
    trimLeft (List.replicate n x) = 0 := by
  unfold trimLeft
  rw [List.length_replicate, find?_range_none]
  · rfl
  · intro i hi
    rw [getD_replicate_of_lt (by omega)]
    simpa using hx

theorem trimRight_replicate (n : ℕ) (x : ℚ) (hx : (0.2 : ℚ) ≤ |x|) :
    trimRight (List.replicate n x) = n - 1 := by
  unfold trimRight
  simp only [List.length_replicate]
  rw [find?_range'_none]
  intro i h1 h2
  have hin : n - i < n := by omega
  rw [getD_replicate_of_lt hin]
  simpa using hx

theorem corrAt_replicate (m i : ℕ) (x : ℚ) :
    corrAt (List.replicate m x) i = ((m - i : ℕ) : ℚ) * (x * x) := by
  unfold corrAt
  rw [List.length_replicate]
  rw [List.map_congr_left (fun j hj => by
    simp only [List.mem_range] at hj
    rw [getD_replicate_of_lt (by omega), getD_replicate_of_lt (by omega)])]
  rw [List.map_const', List.sum_replicate, List.length_range, nsmul_eq_mul]

theorem corrList_replicate (m : ℕ) (x : ℚ) :
    corrList (List.replicate m x) = (List.range m).map (fun i => ((m - i : ℕ) : ℚ) * (x * x)) := by
  unfold corrList
  rw [List.length_replicate]
  exact List.map_congr_left (fun i _ => corrAt_replicate m i x)

theorem get?_eq_some_getD {c : List ℚ} {d : ℕ} (h : d < c.length) :
    c.get? d = some (c.getD d 0) := by
  rw [List.get?_eq_getElem?, List.getD_eq_getElem?_getD, List.getElem?_eq_getElem h]
  rfl

theorem get?_eq_none_of_le {c : List ℚ} {d : ℕ} (h : c.length ≤ d) :
    c.get? d = none := by
  rw [List.get?_eq_getElem?, List.getElem?_eq_none_iff]
  exact h

theorem dLoopAux_run (c : List ℚ)
    (hs : ∀ i, i + 1 < c.length → c.getD (i + 1) 0 < c.getD i 0) :
    ∀ fuel d, c.length ≤ fuel + d + 1 → d + 1 ≤ c.length →
      dLoopAux c fuel d = c.length - 1 := by
  intro fuel
  induction fuel with
  | zero =>
    intro d h1 h2
    have : d = c.length - 1 := by omega
    subst this
    rfl
  | succ fuel ih =>
    intro d h1 h2
    rcases Nat.lt_or_ge (d + 1) c.length with hlt | hge
    · have hd := get?_eq_some_getD (c := c) (d := d) (by omega)
      have hd1 := get?_eq_some_getD (c := c) (d := d + 1) hlt
      unfold dLoopAux
      rw [hd, hd1]
      simp only [hs d hlt, gt_iff_lt, if_pos]
      exact ih (d + 1) (by omega) (by omega)
    · have hd1 : c.get? (d + 1) = none := get?_eq_none_of_le (by omega)
      have hde : d = c.length - 1 := by omega
      unfold dLoopAux
      rw [hd1]
      cases hcd : c.get? d <;> simp [hde]

theorem dLoop_run (c : List ℚ) (hne : c ≠ [])
    (hs : ∀ i, i + 1 < c.length → c.getD (i + 1) 0 < c.getD i 0) :
    dLoop c = c.length - 1 := by
  unfold dLoop
  exact dLoopAux_run c hs _ 0 (by omega) (by
    have := List.length_pos.mpr hne
    omega)

theorem getD_map_range (f : ℕ → ℚ) {i m : ℕ} (h : i < m) :
    ((List.range m).map f).getD i 0 = f i := by
  rw [List.getD_eq_getElem?_getD, List.getElem?_map, List.getElem?_range h]
  rfl

theorem maxPosFrom_last (c : List ℚ) (hne : c ≠ []) (hpos : -1 < c.getD (c.length - 1) 0) :
    maxPosFrom c (c.length - 1) = (c.getD (c.length - 1) 0, ((c.length - 1 : ℕ) : ℤ)) := by
  unfold maxPosFrom
  have hlen : c.length - (c.length - 1) = 1 := by
    have := List.length_pos.mpr hne; omega
  rw [hlen]
  have hr : List.range' (c.length - 1) 1 = [c.length - 1] := rfl
  rw [hr]
  simp only [List.foldl_cons, List.foldl_nil]
  rw [if_pos hpos]

theorem half_abs_ok : (0.2 : ℚ) ≤ |(1/2 : ℚ)| := by
  rw [abs_of_nonneg] <;> norm_num

theorem autoCorrelate_replicate_half (r : ℚ) :
    autoCorrelate (List.replicate 2048 (1/2 : ℚ)) r = ACResult.freq (r / 2046) := by
  have h1 : trimLeft (List.replicate 2048 (1/2 : ℚ)) = 0 := trimLeft_replicate _ _ half_abs_ok
  have h2 : trimRight (List.replicate 2048 (1/2 : ℚ)) = 2047 := trimRight_replicate _ _ half_abs_ok
  have h3 : jsSlice (List.replicate 2048 (1/2 : ℚ)) ((0 : ℕ) : ℤ) ((2047 : ℕ) : ℤ) =
      List.replicate 2047 (1/2 : ℚ) := by
    have hz := jsSlice_replicate_window 2048 0 2047 (by omega) (1/2 : ℚ)
    rw [show ((0 : ℕ) : ℤ) + ((2047 : ℕ) : ℤ) = ((2047 : ℕ) : ℤ) by norm_num] at hz
    exact hz
  have hclen : (corrList (List.replicate 2047 (1/2 : ℚ))).length = 2047 := by
    rw [corrList_replicate, List.length_map, List.length_range]
  have hcne : corrList (List.replicate 2047 (1/2 : ℚ)) ≠ [] := by
    intro hh; rw [hh] at hclen; exact absurd hclen (by norm_num)
  have hgd : ∀ i, i < 2047 → (corrList (List.replicate 2047 (1/2 : ℚ))).getD i 0 =
      ((2047 - i : ℕ) : ℚ) * (1/4) := by
    intro i hi
    rw [corrList_replicate, getD_map_range _ hi]
    norm_num
  have h4 : dLoop (corrList (List.replicate 2047 (1/2 : ℚ))) = 2046 := by
    have := dLoop_run (corrList (List.replicate 2047 (1/2 : ℚ))) hcne (by
      intro i hi
      rw [hclen] at hi
      rw [hgd (i + 1) (by omega), hgd i (by omega)]
      have hlt : ((2047 - (i + 1) : ℕ) : ℚ) < ((2047 - i : ℕ) : ℚ) := by
        exact_mod_cast Nat.sub_lt_sub_left (by omega) (by omega)
      exact mul_lt_mul_of_pos_right hlt (by norm_num))
    rw [hclen] at this
    exact this
  have h5 : maxPosFrom (corrList (List.replicate 2047 (1/2 : ℚ))) 2046 = (1/4, (2046 : ℤ)) := by
    have := maxPosFrom_last (corrList (List.replicate 2047 (1/2 : ℚ))) hcne (by
      rw [hclen]
      rw [hgd 2046 (by omega)]
      norm_num)
    rw [hclen] at this
    rw [this, hgd 2046 (by omega)]
    norm_num
  unfold autoCorrelate
  rw [rmsBelow_replicate_half_001]
  simp only [Bool.false_eq_true, if_false, h1, h2, h3, h4, h5]
  norm_num

theorem segStep_voiced_open (rate t f : ℚ) (hf : 0 < f) (i : ℕ) (c : List ℚ)
    (hrms : rmsBelow c (0.02 : ℚ) = false)
    (hac : autoCorrelate c rate = ACResult.freq f) :
    segStep rate t initSegState i c = ⟨(i : ℤ), some (midiOfFreq f), 1, []⟩ := by
  unfold segStep
  rw [hrms, hac]
  unfold segStepVoiced acVoiced acMidi initSegState
  simp only [Bool.false_eq_true, if_false, decide_eq_true_eq]
  rw [if_pos hf]
  simp only [if_true]

theorem segStep_voiced_extend (rate t f : ℚ) (hf : 0 < f) (i : ℕ) (c : List ℚ)
    (cns : ℤ) (hcns : cns ≠ -1) (k : ℕ) (rn : List RawNote)
    (hrms : rmsBelow c (0.02 : ℚ) = false)
    (hac : autoCorrelate c rate = ACResult.freq f) :
    segStep rate t ⟨cns, some (midiOfFreq f), k, rn⟩ i c =
      ⟨cns, some (midiOfFreq f), k + 1, rn⟩ := by
  unfold segStep
  rw [hrms, hac]
  unfold segStepVoiced acVoiced acMidi pitchJump
  simp only [Bool.false_eq_true, if_false, decide_eq_true_eq]
  rw [if_pos hf, if_neg hcns]
  simp

theorem segmentSlice_neg_case :
    segmentSlice (List.replicate 7169 (1/2 : ℚ)) 900240 0 (-(1/900240)) =
      List.replicate 7168 (1/2 : ℚ) := by
  unfold segmentSlice
  rw [show (⌊(0 : ℚ) * 900240⌋ : ℤ) = 0 by norm_num]
  rw [show (((0 : ℚ) + -(1/900240)) * 900240) = ((-1 : ℤ) : ℚ) by push_cast; ring]
  rw [Int.floor_intCast]
  unfold jsSlice
  rw [List.length_replicate]
  norm_num [List.take_replicate]
  rfl

theorem sweepChunks_neg_case :
    sweepChunks (List.replicate 7169 (1/2 : ℚ)) 900240 0 (-(1/900240)) =
      [((0 : ℕ), List.replicate 2048 (1/2 : ℚ)), ((1024 : ℕ), List.replicate 2048 (1/2 : ℚ)),
       ((2048 : ℕ), List.replicate 2048 (1/2 : ℚ)), ((3072 : ℕ), List.replicate 2048 (1/2 : ℚ)),
       ((4096 : ℕ), List.replicate 2048 (1/2 : ℚ))] := by
  have hch : ∀ i : ℕ, i + 2048 ≤ 7168 →
      jsSlice (List.replicate 7168 (1/2 : ℚ)) (i : ℤ) ((i : ℤ) + 2048) =
        List.replicate 2048 (1/2 : ℚ) := by
    intro i hi
    have hz := jsSlice_replicate_window 7168 i 2048 hi (1/2 : ℚ)
    rw [show ((2048 : ℕ) : ℤ) = (2048 : ℤ) by norm_num] at hz
    exact hz
  unfold sweepChunks
  rw [segmentSlice_neg_case, List.length_replicate]
  rw [show windowStarts 7168 = [0, 1024, 2048, 3072, 4096] by decide]
  simp only [List.map_cons, List.map_nil]
  rw [hch 0 (by norm_num), hch 1024 (by norm_num), hch 2048 (by norm_num),
    hch 3072 (by norm_num), hch 4096 (by norm_num)]

/-- At sample rate 900240 the 440 Hz estimate comes out exactly:
`900240 / 2046 = 440`. -/
theorem autoCorrelate_half_900240 :
    autoCorrelate (List.replicate 2048 (1/2 : ℚ)) 900240 = ACResult.freq 440 := by
  rw [autoCorrelate_replicate_half]; norm_num

/-- Sweeping five identical voiced windows from the initial state opens a
note at frame 0 and accrues five stable frames. -/
theorem segFold_five_generic (rate t f : ℚ) (hf : 0 < f) (c : List ℚ)
    (hrms : rmsBelow c (0.02 : ℚ) = false)
    (hac : autoCorrelate c rate = ACResult.freq f) :
    List.foldl (fun st p => segStep rate t st p.1 p.2) initSegState
      [((0 : ℕ), c), ((1024 : ℕ), c), ((2048 : ℕ), c), ((3072 : ℕ), c), ((4096 : ℕ), c)] =
      ⟨((0 : ℕ) : ℤ), some (midiOfFreq f), 5, []⟩ := by
  have s1 : segStep rate t initSegState 0 c = ⟨((0 : ℕ) : ℤ), some (midiOfFreq f), 1, []⟩ :=
    segStep_voiced_open rate t f hf 0 c hrms hac
  have s2 : segStep rate t ⟨((0 : ℕ) : ℤ), some (midiOfFreq f), 1, []⟩ 1024 c =
      ⟨((0 : ℕ) : ℤ), some (midiOfFreq f), 2, []⟩ :=
    segStep_voiced_extend rate t f hf 1024 c ((0 : ℕ) : ℤ) (by decide) 1 [] hrms hac
  have s3 : segStep rate t ⟨((0 : ℕ) : ℤ), some (midiOfFreq f), 2, []⟩ 2048 c =
      ⟨((0 : ℕ) : ℤ), some (midiOfFreq f), 3, []⟩ :=
    segStep_voiced_extend rate t f hf 2048 c ((0 : ℕ) : ℤ) (by decide) 2 [] hrms hac
  have s4 : segStep rate t ⟨((0 : ℕ) : ℤ), some (midiOfFreq f), 3, []⟩ 3072 c =
      ⟨((0 : ℕ) : ℤ), some (midiOfFreq f), 4, []⟩ :=
    segStep_voiced_extend rate t f hf 3072 c ((0 : ℕ) : ℤ) (by decide) 3 [] hrms hac
  have s5 : segStep rate t ⟨((0 : ℕ) : ℤ), some (midiOfFreq f), 4, []⟩ 4096 c =
      ⟨((0 : ℕ) : ℤ), some (midiOfFreq f), 5, []⟩ :=
    segStep_voiced_extend rate t f hf 4096 c ((0 : ℕ) : ℤ) (by decide) 4 [] hrms hac
  simp only [List.foldl_cons, List.foldl_nil]
  rw [s1, s2, s3, s4, s5]

/-- The concrete sweep of the counterexample buffer. -/
theorem segFold_neg_case :
    List.foldl (fun st p => segStep 900240 0 st p.1 p.2) initSegState
      [((0 : ℕ), List.replicate 2048 (1/2 : ℚ)), ((1024 : ℕ), List.replicate 2048 (1/2 : ℚ)),
       ((2048 : ℕ), List.replicate 2048 (1/2 : ℚ)), ((3072 : ℕ), List.replicate 2048 (1/2 : ℚ)),
       ((4096 : ℕ), List.replicate 2048 (1/2 : ℚ))] =
      ⟨((0 : ℕ) : ℤ), some (midiOfFreq 440), 5, []⟩ :=
  segFold_five_generic 900240 0 440 (by norm_num) _ rmsBelow_replicate_half_002
    autoCorrelate_half_900240

theorem rng_unit (s : ℕ) : 0 ≤ (rngDraw s).1 ∧ (rngDraw s).1 < 1 := by
  obtain ⟨n, hn, hval⟩ := getSeededRandom_num_lt s
  unfold rngDraw
  constructor
  · rw [hval]; positivity
  · rw [hval, div_lt_one (by norm_num)]
    exact_mod_cast lt_of_lt_of_le hn (by norm_num)

theorem composeParams_BEAT (seed : String) :
    ∃ BPM : ℤ, 80 ≤ BPM ∧ BPM ≤ 129 ∧
      (composeParams seed).BEAT_DURATION = 60 / (BPM : ℚ) ∧
      (composeParams seed).BAR_DURATION = (composeParams seed).BEAT_DURATION * 4 := by
  obtain ⟨h0, h1⟩ := rng_unit (charCodeSum seed)
  refine ⟨80 + ⌊(rngDraw (charCodeSum seed)).1 * 50⌋, ?_, ?_, rfl, rfl⟩
  · have : (0 : ℤ) ≤ ⌊(rngDraw (charCodeSum seed)).1 * 50⌋ :=
      Int.floor_nonneg.mpr (by positivity)
    omega
  · have : ⌊(rngDraw (charCodeSum seed)).1 * 50⌋ < 50 := by
      rw [Int.floor_lt]
      calc (rngDraw (charCodeSum seed)).1 * 50 < 1 * 50 := by
            exact mul_lt_mul_of_pos_right h1 (by norm_num)
        _ = ((50 : ℤ) : ℚ) := by norm_num
    omega

theorem composeParams_BEAT_bounds (seed : String) :
    (60 / 129 : ℚ) ≤ (composeParams seed).BEAT_DURATION ∧
      (composeParams seed).BEAT_DURATION ≤ (3/4 : ℚ) ∧
      (composeParams seed).BAR_DURATION = (composeParams seed).BEAT_DURATION * 4 := by
  obtain ⟨BPM, h80, h129, hbeat, hbar⟩ := composeParams_BEAT seed
  have hpos : (0 : ℚ) < (BPM : ℚ) := by exact_mod_cast lt_of_lt_of_le (by norm_num) h80
  refine ⟨?_, ?_, hbar⟩
  · rw [hbeat]
    rw [div_le_div_iff₀ (by norm_num) hpos]
    have : (BPM : ℚ) ≤ 129 := by exact_mod_cast h129
    linarith
  · rw [hbeat, div_le_iff₀ hpos]
    have : (80 : ℚ) ≤ (BPM : ℚ) := by exact_mod_cast h80
    linarith



theorem melodyLoop_mem (rootNote : ℤ) (scaleIntervals : List ℤ) (BEAT : ℚ)
    (s e barStart : ℚ) (bar chordDegree : ℤ) (isQuestion : Bool) (hB : 0 ≤ BEAT) :
    ∀ (fuel hb : ℕ) (seed : ℕ) (lmd : ℤ) (n : NoteEvent),
      n ∈ (melodyLoop rootNote scaleIntervals BEAT s e barStart bar chordDegree isQuestion
        fuel hb seed lmd).2.2 →
      (s ≤ n.start_time ∧ n.start_time < e) ∧
      (barStart ≤ n.start_time ∧ n.start_time ≤ barStart + (7/2) * BEAT) ∧
      ∃ h t : ℕ, n.id = NoteId.mel bar h t ∧ hb ≤ h ∧ h < 8 := by
  intro fuel
  induction fuel with
  | zero => intro hb seed lmd n hn; simp [melodyLoop] at hn
  | succ fuel ih =>
    intro hb seed lmd n hn
    rw [melodyLoop] at hn
    by_cases hhb : hb < 8
    · rw [if_pos hhb] at hn
      simp only [] at hn
      split at hn <;> split at hn <;>
        first
        | (rename_i hguard
           simp only [List.mem_cons] at hn
           rcases hn with rfl | hn
           · simp only [melNote]
             refine ⟨⟨hguard.2.1, hguard.2.2⟩, ⟨?_, ?_⟩, hb, _, rfl, le_refl hb, hhb⟩
             · have h0 : 0 ≤ ((hb : ℚ) / 2) * BEAT := by positivity
               linarith
             · have h7 : (hb : ℚ) ≤ 7 := by exact_mod_cast Nat.le_of_lt_succ hhb
               have hm : ((hb : ℚ) / 2) * BEAT ≤ (7/2) * BEAT := by
                 apply mul_le_mul_of_nonneg_right _ hB
                 linarith
               linarith
           · obtain ⟨h1, h2, h, t, hid, hle, hlt⟩ := ih _ _ _ n hn
             exact ⟨h1, h2, h, t, hid, le_trans (Nat.le_add_right hb _) hle, hlt⟩)
        | (obtain ⟨h1, h2, h, t, hid, hle, hlt⟩ := ih _ _ _ n hn
           exact ⟨h1, h2, h, t, hid, le_trans (Nat.le_add_right hb _) hle, hlt⟩)
    · rw [if_neg hhb] at hn
      simp at hn


theorem harmChord_mem (rootNote : ℤ) (scaleIntervals : List ℤ) (BEAT : ℚ)
    (s e barStart : ℚ) (bar chordDegree : ℤ) (intensity : ℚ) (hB : 0 ≤ BEAT)
    (n : NoteEvent)
    (hn : n ∈ harmChord rootNote scaleIntervals BEAT s e barStart bar chordDegree intensity) :
    (s ≤ n.start_time ∧ n.start_time < e) ∧
    (barStart ≤ n.start_time ∧ n.start_time ≤ barStart + BEAT + 0.06) ∧
    ∃ i : ℕ, n.id = NoteId.harm bar i ∧ i < 3 := by
  unfold harmChord at hn
  rw [show (([0, 2, 4] : List ℤ).enum) = [(0, 0), (1, 2), (2, 4)] from rfl,
    List.mem_filterMap] at hn
  obtain ⟨p, hp, hfp⟩ := hn
  simp only [List.mem_cons, List.not_mem_nil, or_false] at hp
  rcases hp with rfl | rfl | rfl <;>
  · simp only [] at hfp
    split at hfp
    · rename_i hg
      injection hfp with hfp
      subst hfp
      refine ⟨⟨hg.1, hg.2⟩, ⟨?_, ?_⟩, _, rfl, by norm_num⟩
      · show barStart ≤ barStart + BEAT + _ * 0.03
        push_cast
        linarith
      · show barStart + BEAT + _ * 0.03 ≤ barStart + BEAT + 0.06
        push_cast
        linarith
    · exact absurd hfp (by simp)


theorem bassLayer_mem (rootNote : ℤ) (scaleIntervals : List ℤ) (BEAT BAR s e : ℚ)
    (bar chordDegree : ℤ) (seed : ℕ) (hB : 0 ≤ BEAT) (n : NoteEvent)
    (hn : n ∈ (if max s ((bar : ℚ) * BAR) < e then
        if getSeededRandom seed > (0.4 : ℚ) then
          if (bar : ℚ) * BAR + BEAT * 2 ≥ s ∧ (bar : ℚ) * BAR + BEAT * 2 < e then
            (seed + 2, [bassNote1 rootNote scaleIntervals BEAT ((bar : ℚ) * BAR) bar chordDegree,
              bassNote2 rootNote scaleIntervals BEAT ((bar : ℚ) * BAR) bar chordDegree (seed + 1)])
          else (seed + 1, [bassNote1 rootNote scaleIntervals BEAT ((bar : ℚ) * BAR) bar chordDegree])
        else (seed + 1, [bassNote1 rootNote scaleIntervals BEAT ((bar : ℚ) * BAR) bar chordDegree])
      else (seed, ([] : List NoteEvent))).2) :
    n.start_time < e ∧
    ((bar : ℚ) * BAR ≤ n.start_time ∧
      n.start_time ≤ (bar : ℚ) * BAR + (7/2) * BEAT + 0.06) ∧
    ((n.id = NoteId.bass bar 1 ∧ n.start_time = (bar : ℚ) * BAR) ∨ s ≤ n.start_time) := by
  by_cases h1 : max s ((bar : ℚ) * BAR) < e
  · rw [if_pos h1] at hn
    have hbs : (bar : ℚ) * BAR < e := lt_of_le_of_lt (le_max_right s _) h1
    by_cases hv : getSeededRandom seed > (0.4 : ℚ)
    · rw [if_pos hv] at hn
      by_cases hg3 : (bar : ℚ) * BAR + BEAT * 2 ≥ s ∧ (bar : ℚ) * BAR + BEAT * 2 < e
      · rw [if_pos hg3] at hn
        simp only [List.mem_cons, List.not_mem_nil, or_false] at hn
        rcases hn with rfl | rfl
        · exact ⟨hbs, ⟨le_refl _, by simp only [bassNote1]; linarith⟩, Or.inl ⟨rfl, rfl⟩⟩
        · refine ⟨hg3.2, ⟨?_, ?_⟩, Or.inr hg3.1⟩
          · simp only [bassNote2]; linarith
          · simp only [bassNote2]; linarith
      · rw [if_neg hg3] at hn
        simp only [List.mem_singleton] at hn
        subst hn
        exact ⟨hbs, ⟨le_refl _, by simp only [bassNote1]; linarith⟩, Or.inl ⟨rfl, rfl⟩⟩
    · rw [if_neg hv] at hn
      simp only [List.mem_singleton] at hn
      subst hn
      exact ⟨hbs, ⟨le_refl _, by simp only [bassNote1]; linarith⟩, Or.inl ⟨rfl, rfl⟩⟩
  · rw [if_neg h1] at hn
    simp at hn

theorem harmLayer_mem (rootNote : ℤ) (scaleIntervals : List ℤ) (BEAT BAR s e : ℚ)
    (bar chordDegree : ℤ) (s1 : ℕ) (hB : 0 ≤ BEAT) (n : NoteEvent)
    (hn : n ∈ (if getSeededRandom s1 > (0.3 : ℚ) then
        harmChord rootNote scaleIntervals BEAT s e ((bar : ℚ) * BAR) bar chordDegree
          (getSeededRandom s1)
      else ([] : List NoteEvent))) :
    n.start_time < e ∧
    ((bar : ℚ) * BAR ≤ n.start_time ∧
      n.start_time ≤ (bar : ℚ) * BAR + (7/2) * BEAT + 0.06) ∧
    s ≤ n.start_time := by
  by_cases hc : getSeededRandom s1 > (0.3 : ℚ)
  · rw [if_pos hc] at hn
    obtain ⟨⟨hs, he⟩, ⟨hlo, hhi⟩, i, hid, hi⟩ :=
      harmChord_mem rootNote scaleIntervals BEAT s e _ bar _ _ hB n hn
    exact ⟨he, ⟨hlo, by linarith⟩, hs⟩
  · rw [if_neg hc] at hn
    simp at hn

theorem composeBar_mem (rootNote : ℤ) (scaleIntervals progression : List ℤ)
    (BEAT BAR s e : ℚ) (bar : ℤ) (seed : ℕ) (lmd : ℤ)
    (hB : 0 ≤ BEAT) :
    ∀ n ∈ (composeBar rootNote scaleIntervals progression BEAT BAR s e bar seed lmd).2.2,
      n.start_time < e ∧
      ((bar : ℚ) * BAR ≤ n.start_time ∧
        n.start_time ≤ (bar : ℚ) * BAR + (7/2) * BEAT + 0.06) ∧
      ((n.id = NoteId.bass bar 1 ∧ n.start_time = (bar : ℚ) * BAR) ∨ s ≤ n.start_time) := by
  intro n hn
  unfold composeBar at hn
  simp only [List.mem_append] at hn
  rcases hn with (hb | hh) | hm
  · exact bassLayer_mem rootNote scaleIntervals BEAT BAR s e bar _ seed hB n hb
  · obtain ⟨he, hb2, hs⟩ :=
      harmLayer_mem rootNote scaleIntervals BEAT BAR s e bar _ _ hB n hh
    exact ⟨he, hb2, Or.inr hs⟩
  · obtain ⟨⟨hs, he⟩, ⟨hlo, hhi⟩, _⟩ :=
      melodyLoop_mem rootNote scaleIntervals BEAT s e _ bar _ _ hB 8 0 _ lmd n hm
    exact ⟨he, ⟨hlo, by linarith⟩, Or.inr hs⟩

theorem composeBarsFold_mem (P : ComposeParams) (s e : ℚ) :
    ∀ (bars : List ℤ) (st : ℕ × ℤ × List NoteEvent) (n : NoteEvent),
      n ∈ (composeBarsFold P s e bars st).2.2 →
      n ∈ st.2.2 ∨ ∃ bar ∈ bars, ∃ sd : ℕ, ∃ lmd : ℤ,
        n ∈ (composeBar P.rootNote P.scaleIntervals P.progression P.BEAT_DURATION
          P.BAR_DURATION s e bar sd lmd).2.2 := by
  intro bars
  induction bars with
  | nil => intro st n hn; exact Or.inl hn
  | cons b bs ih =>
    intro st n hn
    rw [composeBarsFold] at hn
    rcases ih _ n hn with hst | ⟨bar, hbar, sd, lmd, hmem⟩
    · simp only [List.mem_append] at hst
      rcases hst with hst | hout
      · exact Or.inl hst
      · exact Or.inr ⟨b, List.mem_cons_self b bs, st.1, st.2.1, hout⟩
    · exact Or.inr ⟨bar, List.mem_cons_of_mem b hbar, sd, lmd, hmem⟩

theorem composeBarRange_mem (P : ComposeParams) (s e : ℚ) :
    ∀ bar ∈ composeBarRange P s e, ⌊s / P.BAR_DURATION⌋ ≤ bar := by
  intro bar hbar
  unfold composeBarRange at hbar
  simp only [List.mem_map, List.mem_range] at hbar
  obtain ⟨k, hk, rfl⟩ := hbar
  exact le_add_of_nonneg_right (Int.natCast_nonneg k)

/-- C2: corrected.  With `0 ≤ startTime`, every note of
`composeNotes seed startTime endTime` has `start_time < endTime` and starts
strictly later than `startTime - BAR_DURATION`; every harmony, melody and
beat-3 bass note moreover has `startTime ≤ start_time`; but a beat-1 bass
note is emitted with `start_time` equal to its raw bar start
`bar * BAR_DURATION`, which can lie before `startTime` (the source pushes it
with `start_time: barStart` even though it clamps the emission guard to
`Math.max(startTime, barStart)`), so the claimed lower clipping fails for
that layer; see the counterexample theorem. -/
theorem compose_window_clipping (seed : String) (s e : ℚ) (hs : 0 ≤ s) :
    ∀ n ∈ composeNotes seed s e,
      n.start_time < e ∧
      s - (composeParams seed).BAR_DURATION < n.start_time ∧
      ((∃ b : ℤ, n.id = NoteId.bass b 1 ∧
          n.start_time = (b : ℚ) * (composeParams seed).BAR_DURATION) ∨
        s ≤ n.start_time) := by
  intro n hn
  obtain ⟨hbeat_lo, hbeat_hi, hbar_eq⟩ := composeParams_BEAT_bounds seed
  set P := composeParams seed with hP
  have hB : 0 ≤ P.BEAT_DURATION := le_trans (by norm_num) hbeat_lo
  have hBARpos : 0 < P.BAR_DURATION := by rw [hbar_eq]; linarith
  have hmem : n ∈ (composeBarsFold P s e (composeBarRange P s e)
      (P.seedAfterSetup, 0, [])).2.2 := by
    have heq : composeNotes seed s e =
        List.mergeSort ((composeBarsFold P s e (composeBarRange P s e)
          (P.seedAfterSetup, 0, [])).2.2) (fun a b => a.start_time ≤ b.start_time) := rfl
    rw [heq] at hn
    exact (List.mergeSort_perm _ _).mem_iff.mp hn
  rcases composeBarsFold_mem P s e _ _ n hmem with hinit | ⟨bar, hbar, sd, lmd, hbarmem⟩
  · simp at hinit
  · have hfloor : ⌊s / P.BAR_DURATION⌋ ≤ bar := composeBarRange_mem P s e bar hbar
    obtain ⟨he, ⟨hlo, hhi⟩, hdisj⟩ := composeBar_mem P.rootNote P.scaleIntervals
      P.progression P.BEAT_DURATION P.BAR_DURATION s e bar sd lmd hB n hbarmem
    have hbarStart : s - P.BAR_DURATION < (bar : ℚ) * P.BAR_DURATION := by
      have h1 : s / P.BAR_DURATION - 1 < ((⌊s / P.BAR_DURATION⌋ : ℤ) : ℚ) :=
        Int.sub_one_lt_floor (s / P.BAR_DURATION)
      have h2 : ((⌊s / P.BAR_DURATION⌋ : ℤ) : ℚ) ≤ (bar : ℚ) := by exact_mod_cast hfloor
      have h3 : (s / P.BAR_DURATION - 1) * P.BAR_DURATION < (bar : ℚ) * P.BAR_DURATION := by
        apply mul_lt_mul_of_pos_right _ hBARpos
        linarith
      have h4 : (s / P.BAR_DURATION - 1) * P.BAR_DURATION = s - P.BAR_DURATION := by
        rw [sub_mul, div_mul_cancel₀ _ (ne_of_gt hBARpos), one_mul]
      linarith
    refine ⟨he, lt_of_lt_of_le hbarStart hlo, ?_⟩
    rcases hdisj with ⟨hid, hst⟩ | hge
    · exact Or.inl ⟨bar, hid, hst⟩
    · exact Or.inr hge

theorem compose_window_clipping_witness :
    (0 : ℚ) ≤ 0 ∧ ∀ n ∈ composeNotes "a" 0 (5/2),
      n.start_time < 5/2 ∧
      0 - (composeParams "a").BAR_DURATION < n.start_time ∧
      ((∃ b : ℤ, n.id = NoteId.bass b 1 ∧
          n.start_time = (b : ℚ) * (composeParams "a").BAR_DURATION) ∨
        (0 : ℚ) ≤ n.start_time) :=
  ⟨le_refl 0, compose_window_clipping "a" 0 (5/2) (le_refl 0)⟩

theorem melodyLoop_endTime_eq (rootNote : ℤ) (scaleIntervals : List ℤ) (BEAT : ℚ)
    (s e1 e2 barStart : ℚ) (bar chordDegree : ℤ) (isQuestion : Bool)
    (hB : 0 < BEAT) (he1 : barStart + 4 * BEAT ≤ e1) (he2 : barStart + 4 * BEAT ≤ e2) :
    ∀ (fuel hb seed : ℕ) (lmd : ℤ),
      melodyLoop rootNote scaleIntervals BEAT s e1 barStart bar chordDegree isQuestion
        fuel hb seed lmd =
      melodyLoop rootNote scaleIntervals BEAT s e2 barStart bar chordDegree isQuestion
        fuel hb seed lmd := by
  intro fuel
  induction fuel with
  | zero => intro hb seed lmd; rfl
  | succ fuel ih =>
    intro hb seed lmd
    rw [melodyLoop, melodyLoop]
    by_cases hhb : hb < 8
    · rw [if_pos hhb, if_pos hhb]
      simp only [ih]
      have hlt : barStart + ((hb : ℚ) / 2) * BEAT < barStart + 4 * BEAT := by
        have h7 : (hb : ℚ) ≤ 7 := by exact_mod_cast Nat.le_of_lt_succ hhb
        have : ((hb : ℚ) / 2) * BEAT ≤ (7/2) * BEAT := by
          apply mul_le_mul_of_nonneg_right _ (le_of_lt hB)
          linarith
        nlinarith
      refine if_congr ?_ rfl rfl
      constructor
      · rintro ⟨a, b, _⟩; exact ⟨a, b, lt_of_lt_of_le hlt he2⟩
      · rintro ⟨a, b, _⟩; exact ⟨a, b, lt_of_lt_of_le hlt he1⟩
    · rw [if_neg hhb, if_neg hhb]

theorem harmChord_endTime_eq (rootNote : ℤ) (scaleIntervals : List ℤ) (BEAT : ℚ)
    (s e1 e2 barStart : ℚ) (bar chordDegree : ℤ)
    (hBlo : (60/129 : ℚ) ≤ BEAT)
    (he1 : barStart + 4 * BEAT ≤ e1) (he2 : barStart + 4 * BEAT ≤ e2) :
    ∀ intensity : ℚ,
      harmChord rootNote scaleIntervals BEAT s e1 barStart bar chordDegree intensity =
      harmChord rootNote scaleIntervals BEAT s e2 barStart bar chordDegree intensity := by
  intro intensity
  unfold harmChord
  apply List.filterMap_congr
  intro p hp
  rw [show (([0, 2, 4] : List ℤ).enum) = [(0, 0), (1, 2), (2, 4)] from rfl] at hp
  simp only [List.mem_cons, List.not_mem_nil, or_false] at hp
  have hple : (p.1 : ℚ) ≤ 2 := by
    rcases hp with rfl | rfl | rfl
    · norm_num
    · norm_num
    · norm_num
  have hlt1 : barStart + BEAT + (p.1 : ℚ) * 0.03 < e1 := by nlinarith
  have hlt2 : barStart + BEAT + (p.1 : ℚ) * 0.03 < e2 := by nlinarith
  simp only []
  refine if_congr ?_ rfl rfl
  constructor
  · rintro ⟨a, _⟩; exact ⟨a, hlt2⟩
  · rintro ⟨a, _⟩; exact ⟨a, hlt1⟩

theorem bassLayer_endTime_eq (rootNote : ℤ) (scaleIntervals : List ℤ) (BEAT BAR s e1 e2 : ℚ)
    (bar chordDegree : ℤ) (seed : ℕ)
    (hBlo : (60/129 : ℚ) ≤ BEAT) (hBAR : BAR = BEAT * 4)
    (hsb : s < ((bar : ℚ) + 1) * BAR)
    (he1 : ((bar : ℚ) + 1) * BAR ≤ e1) (he2 : ((bar : ℚ) + 1) * BAR ≤ e2) :
    (if max s ((bar : ℚ) * BAR) < e1 then
        if getSeededRandom seed > (0.4 : ℚ) then
          if (bar : ℚ) * BAR + BEAT * 2 ≥ s ∧ (bar : ℚ) * BAR + BEAT * 2 < e1 then
            (seed + 2, [bassNote1 rootNote scaleIntervals BEAT ((bar : ℚ) * BAR) bar chordDegree,
              bassNote2 rootNote scaleIntervals BEAT ((bar : ℚ) * BAR) bar chordDegree (seed + 1)])
          else (seed + 1, [bassNote1 rootNote scaleIntervals BEAT ((bar : ℚ) * BAR) bar chordDegree])
        else (seed + 1, [bassNote1 rootNote scaleIntervals BEAT ((bar : ℚ) * BAR) bar chordDegree])
      else (seed, ([] : List NoteEvent))) =
    (if max s ((bar : ℚ) * BAR) < e2 then
        if getSeededRandom seed > (0.4 : ℚ) then
          if (bar : ℚ) * BAR + BEAT * 2 ≥ s ∧ (bar : ℚ) * BAR + BEAT * 2 < e2 then
            (seed + 2, [bassNote1 rootNote scaleIntervals BEAT ((bar : ℚ) * BAR) bar chordDegree,
              bassNote2 rootNote scaleIntervals BEAT ((bar : ℚ) * BAR) bar chordDegree (seed + 1)])
          else (seed + 1, [bassNote1 rootNote scaleIntervals BEAT ((bar : ℚ) * BAR) bar chordDegree])
        else (seed + 1, [bassNote1 rootNote scaleIntervals BEAT ((bar : ℚ) * BAR) bar chordDegree])
      else (seed, ([] : List NoteEvent))) := by
  have hbs : (bar : ℚ) * BAR < ((bar : ℚ) + 1) * BAR := by nlinarith
  have hmax1 : max s ((bar : ℚ) * BAR) < e1 :=
    lt_of_lt_of_le (max_lt hsb hbs) he1
  have hmax2 : max s ((bar : ℚ) * BAR) < e2 :=
    lt_of_lt_of_le (max_lt hsb hbs) he2
  have hb3 : (bar : ℚ) * BAR + BEAT * 2 < ((bar : ℚ) + 1) * BAR := by nlinarith
  rw [if_pos hmax1, if_pos hmax2]
  refine if_congr Iff.rfl ?_ rfl
  refine if_congr ?_ rfl rfl
  constructor
  · rintro ⟨a, _⟩; exact ⟨a, lt_of_lt_of_le hb3 he2⟩
  · rintro ⟨a, _⟩; exact ⟨a, lt_of_lt_of_le hb3 he1⟩

theorem composeBar_endTime_eq (rootNote : ℤ) (scaleIntervals progression : List ℤ)
    (BEAT BAR s e1 e2 : ℚ) (bar : ℤ) (seed : ℕ) (lmd : ℤ)
    (hBlo : (60/129 : ℚ) ≤ BEAT) (hBAR : BAR = BEAT * 4)
    (hsb : s < ((bar : ℚ) + 1) * BAR)
    (he1 : ((bar : ℚ) + 1) * BAR ≤ e1) (he2 : ((bar : ℚ) + 1) * BAR ≤ e2) :
    composeBar rootNote scaleIntervals progression BEAT BAR s e1 bar seed lmd =
    composeBar rootNote scaleIntervals progression BEAT BAR s e2 bar seed lmd := by
  have hB : 0 < BEAT := lt_of_lt_of_le (by norm_num) hBlo
  have hbe1 : (bar : ℚ) * BAR + 4 * BEAT ≤ e1 := by
    have : (bar : ℚ) * BAR + 4 * BEAT = ((bar : ℚ) + 1) * BAR := by rw [hBAR]; ring
    linarith [he1, this.le]
  have hbe2 : (bar : ℚ) * BAR + 4 * BEAT ≤ e2 := by
    have : (bar : ℚ) * BAR + 4 * BEAT = ((bar : ℚ) + 1) * BAR := by rw [hBAR]; ring
    linarith [he2, this.le]
  have hml := melodyLoop_endTime_eq rootNote scaleIntervals BEAT s e1 e2 ((bar : ℚ) * BAR)
    bar (progression.getD ((bar % 4).toNat) 0) (decide (bar % 2 = 0)) hB hbe1 hbe2
  have hhc := harmChord_endTime_eq rootNote scaleIntervals BEAT s e1 e2 ((bar : ℚ) * BAR)
    bar (progression.getD ((bar % 4).toNat) 0) hBlo hbe1 hbe2
  have hbass := bassLayer_endTime_eq rootNote scaleIntervals BEAT BAR s e1 e2 bar
    (progression.getD ((bar % 4).toNat) 0) seed hBlo hBAR hsb he1 he2
  unfold composeBar
  simp only [hml, hhc]
  rw [hbass]

theorem composeBarsFold_endTime_eq (P : ComposeParams) (s e1 e2 : ℚ)
    (hBlo : (60/129 : ℚ) ≤ P.BEAT_DURATION)
    (hBAR : P.BAR_DURATION = P.BEAT_DURATION * 4) :
    ∀ (bars : List ℤ) (st : ℕ × ℤ × List NoteEvent),
      (∀ bar ∈ bars, s < ((bar : ℚ) + 1) * P.BAR_DURATION ∧
        ((bar : ℚ) + 1) * P.BAR_DURATION ≤ e1 ∧
        ((bar : ℚ) + 1) * P.BAR_DURATION ≤ e2) →
      composeBarsFold P s e1 bars st = composeBarsFold P s e2 bars st := by
  intro bars
  induction bars with
  | nil => intro st h; rfl
  | cons b bs ih =>
    intro st h
    rw [composeBarsFold, composeBarsFold]
    obtain ⟨h1, h2, h3⟩ := h b (List.mem_cons_self b bs)
    rw [composeBar_endTime_eq P.rootNote P.scaleIntervals P.progression P.BEAT_DURATION
      P.BAR_DURATION s e1 e2 b st.1 st.2.1 hBlo hBAR h1 h2 h3]
    exact ih _ (fun bar hbar => h bar (List.mem_cons_of_mem b hbar))

theorem composeBarsFold_filter_out (P : ComposeParams) (s e : ℚ) (p : NoteEvent → Bool) :
    ∀ (bars : List ℤ) (st : ℕ × ℤ × List NoteEvent),
      (∀ bar ∈ bars, ∀ (sd : ℕ) (lmd : ℤ),
        ∀ n ∈ (composeBar P.rootNote P.scaleIntervals P.progression P.BEAT_DURATION
          P.BAR_DURATION s e bar sd lmd).2.2, p n = false) →
      (composeBarsFold P s e bars st).2.2.filter p = st.2.2.filter p := by
  intro bars
  induction bars with
  | nil => intro st h; rfl
  | cons b bs ih =>
    intro st h
    rw [composeBarsFold]
    rw [ih _ (fun bar hbar => h bar (List.mem_cons_of_mem b hbar))]
    simp only [List.filter_append]
    have hnil : List.filter p (composeBar P.rootNote P.scaleIntervals P.progression
        P.BEAT_DURATION P.BAR_DURATION s e b st.1 st.2.1).2.2 = [] :=
      List.filter_eq_nil_iff.mpr (fun n hn =>
        by simpa using h b (List.mem_cons_self b bs) st.1 st.2.1 n hn)
    rw [hnil, List.append_nil]

theorem composeBarsFold_append (P : ComposeParams) (s e : ℚ) :
    ∀ (l1 l2 : List ℤ) (st : ℕ × ℤ × List NoteEvent),
      composeBarsFold P s e (l1 ++ l2) st =
        composeBarsFold P s e l2 (composeBarsFold P s e l1 st) := by
  intro l1
  induction l1 with
  | nil => intro l2 st; rfl
  | cons b bs ih =>
    intro l2 st
    rw [List.cons_append, composeBarsFold, composeBarsFold, ih]

theorem compose_filter_bar_core (seed : String) (s e : ℚ) (b : ℤ)
    (hsb : ⌊s / (composeParams seed).BAR_DURATION⌋ ≤ b)
    (he : ((b : ℚ) + 1) * (composeParams seed).BAR_DURATION ≤ e) :
    ((composeNotes seed s e).filter
        (fun n => decide ((b : ℚ) * (composeParams seed).BAR_DURATION ≤ n.start_time ∧
          n.start_time < ((b : ℚ) + 1) * (composeParams seed).BAR_DURATION))).Perm
      ((composeBar (composeParams seed).rootNote (composeParams seed).scaleIntervals
          (composeParams seed).progression (composeParams seed).BEAT_DURATION
          (composeParams seed).BAR_DURATION s
          (((b : ℚ) + 1) * (composeParams seed).BAR_DURATION) b
          (composeBarsFold (composeParams seed) s
            (((b : ℚ) + 1) * (composeParams seed).BAR_DURATION)
            ((List.range (b - ⌊s / (composeParams seed).BAR_DURATION⌋).toNat).map
              (fun (k : ℕ) => ⌊s / (composeParams seed).BAR_DURATION⌋ + (k : ℤ)))
            ((composeParams seed).seedAfterSetup, 0, [])).1
          (composeBarsFold (composeParams seed) s
            (((b : ℚ) + 1) * (composeParams seed).BAR_DURATION)
            ((List.range (b - ⌊s / (composeParams seed).BAR_DURATION⌋).toNat).map
              (fun (k : ℕ) => ⌊s / (composeParams seed).BAR_DURATION⌋ + (k : ℤ)))
            ((composeParams seed).seedAfterSetup, 0, [])).2.1).2.2) := by
  obtain ⟨hBlo, hBhi, hBAR⟩ := composeParams_BEAT_bounds seed
  set P := composeParams seed with hP
  set pb : NoteEvent → Bool :=
    (fun n => decide ((b : ℚ) * P.BAR_DURATION ≤ n.start_time ∧
      n.start_time < ((b : ℚ) + 1) * P.BAR_DURATION)) with hpb
  have hBpos : 0 < P.BEAT_DURATION := lt_of_lt_of_le (by norm_num) hBlo
  have hBARpos : 0 < P.BAR_DURATION := by rw [hBAR]; linarith
  set sb : ℤ := ⌊s / P.BAR_DURATION⌋ with hsbdef
  set eRef : ℚ := ((b : ℚ) + 1) * P.BAR_DURATION with heRef
  set f : ℕ → ℤ := (fun (k : ℕ) => sb + (k : ℤ)) with hf
  -- basic arithmetic facts
  have hslt : s < ((sb : ℚ) + 1) * P.BAR_DURATION := by
    have h1 : s / P.BAR_DURATION < (sb : ℚ) + 1 := Int.lt_floor_add_one _
    have h2 : s = (s / P.BAR_DURATION) * P.BAR_DURATION := by
      field_simp
    rw [h2]
    exact mul_lt_mul_of_pos_right h1 hBARpos
  have hmono : ∀ b1 b2 : ℤ, b1 ≤ b2 →
      (b1 : ℚ) * P.BAR_DURATION ≤ (b2 : ℚ) * P.BAR_DURATION := by
    intro b1 b2 h
    apply mul_le_mul_of_nonneg_right _ (le_of_lt hBARpos)
    exact_mod_cast h
  have hceil : b + 1 ≤ ⌈e / P.BAR_DURATION⌉ := by
    have h1 : ((b : ℚ) + 1) ≤ e / P.BAR_DURATION := by
      rw [le_div_iff₀ hBARpos]; exact he
    calc b + 1 = ⌈((b + 1 : ℤ) : ℚ)⌉ := (Int.ceil_intCast _).symm
      _ ≤ ⌈e / P.BAR_DURATION⌉ := Int.ceil_mono (by push_cast; linarith)
  -- the range splits into the prefix below b, the bar b itself, and bars above b
  set m' : ℕ := (b - sb).toNat with hm'
  set N : ℕ := (⌈e / P.BAR_DURATION⌉ - sb).toNat with hN
  have hmN : m' + 1 ≤ N := by omega
  have hsplit : composeBarRange P s e =
      ((List.range (m' + 1)).map f) ++ (((List.range (N - (m' + 1))).map ((m' + 1) + ·)).map f) := by
    unfold composeBarRange
    simp only []
    rw [← hf, ← hN]
    rw [show N = (m' + 1) + (N - (m' + 1)) by omega, List.range_add, List.map_append]
    rw [show m' + 1 + (N - (m' + 1)) - (m' + 1) = N - (m' + 1) by omega]
  have hpfx : (List.range (m' + 1)).map f = ((List.range m').map f) ++ [b] := by
    rw [List.range_succ, List.map_append]
    simp only [List.map_cons, List.map_nil, hf]
    rw [show sb + (m' : ℤ) = b by omega]
  -- bars strictly above b contribute no note starting inside bar b
  have hSuffix : ∀ bar ∈ ((List.range (N - (m' + 1))).map ((m' + 1) + ·)).map f,
      ∀ (sd : ℕ) (lmd : ℤ), ∀ n ∈ (composeBar P.rootNote P.scaleIntervals P.progression
        P.BEAT_DURATION P.BAR_DURATION s e bar sd lmd).2.2, pb n = false := by
    intro bar hbar sd lmd n hn
    simp only [List.mem_map, List.mem_range] at hbar
    obtain ⟨a, ⟨j, hj, rfl⟩, rfl⟩ := hbar
    obtain ⟨_, ⟨hlo, _⟩, _⟩ := composeBar_mem P.rootNote P.scaleIntervals P.progression
      P.BEAT_DURATION P.BAR_DURATION s e _ sd lmd (le_of_lt hBpos) n hn
    have hge : b + 1 ≤ f ((m' + 1) + j) := by simp only [hf]; omega
    have : ((b : ℚ) + 1) * P.BAR_DURATION ≤ n.start_time := by
      calc ((b : ℚ) + 1) * P.BAR_DURATION
          = ((b + 1 : ℤ) : ℚ) * P.BAR_DURATION := by push_cast; ring
        _ ≤ ((f ((m' + 1) + j) : ℤ) : ℚ) * P.BAR_DURATION := hmono _ _ hge
        _ ≤ n.start_time := hlo
    simp only [hpb, decide_eq_false_iff_not]
    rintro ⟨_, h2⟩
    linarith
  -- bars strictly below b contribute no note starting inside bar b
  have hPfx : ∀ bar ∈ (List.range m').map f,
      ∀ (sd : ℕ) (lmd : ℤ), ∀ n ∈ (composeBar P.rootNote P.scaleIntervals P.progression
        P.BEAT_DURATION P.BAR_DURATION s e bar sd lmd).2.2, pb n = false := by
    intro bar hbar sd lmd n hn
    simp only [List.mem_map, List.mem_range] at hbar
    obtain ⟨j, hj, rfl⟩ := hbar
    obtain ⟨_, ⟨_, hhi⟩, _⟩ := composeBar_mem P.rootNote P.scaleIntervals P.progression
      P.BEAT_DURATION P.BAR_DURATION s e _ sd lmd (le_of_lt hBpos) n hn
    have hle : f j + 1 ≤ b := by simp only [hf]; omega
    have hlt : n.start_time < (b : ℚ) * P.BAR_DURATION := by
      have h1 : n.start_time < ((f j : ℤ) : ℚ) * P.BAR_DURATION + 4 * P.BEAT_DURATION := by
        linarith
      have h2 : ((f j : ℤ) : ℚ) * P.BAR_DURATION + 4 * P.BEAT_DURATION
          = (((f j + 1 : ℤ)) : ℚ) * P.BAR_DURATION := by
        push_cast; rw [hBAR]; ring
      have h3 : (((f j + 1 : ℤ)) : ℚ) * P.BAR_DURATION ≤ (b : ℚ) * P.BAR_DURATION :=
        hmono _ _ hle
      linarith
    simp only [hpb, decide_eq_false_iff_not]
    rintro ⟨h1, _⟩
    linarith
  -- the prefix state does not depend on the end of the window
  have hAgnostic : ∀ bar ∈ (List.range m').map f,
      s < ((bar : ℚ) + 1) * P.BAR_DURATION ∧
      ((bar : ℚ) + 1) * P.BAR_DURATION ≤ e ∧
      ((bar : ℚ) + 1) * P.BAR_DURATION ≤ eRef := by
    intro bar hbar
    simp only [List.mem_map, List.mem_range] at hbar
    obtain ⟨j, hj, rfl⟩ := hbar
    have hge : sb ≤ f j := by simp only [hf]; omega
    have hle : f j + 1 ≤ b := by simp only [hf]; omega
    have hup : ((f j : ℤ) : ℚ) + 1 = ((f j + 1 : ℤ) : ℚ) := by push_cast; ring
    refine ⟨?_, ?_, ?_⟩
    · calc s < ((sb : ℚ) + 1) * P.BAR_DURATION := hslt
        _ = ((sb + 1 : ℤ) : ℚ) * P.BAR_DURATION := by push_cast; ring
        _ ≤ (((f j + 1 : ℤ)) : ℚ) * P.BAR_DURATION := hmono _ _ (by omega)
        _ = (((f j : ℤ) : ℚ) + 1) * P.BAR_DURATION := by rw [hup]
    · calc (((f j : ℤ) : ℚ) + 1) * P.BAR_DURATION
          = ((f j + 1 : ℤ) : ℚ) * P.BAR_DURATION := by rw [hup]
        _ ≤ ((b + 1 : ℤ) : ℚ) * P.BAR_DURATION := hmono _ _ (by omega)
        _ = ((b : ℚ) + 1) * P.BAR_DURATION := by push_cast; ring
        _ ≤ e := he
    · calc (((f j : ℤ) : ℚ) + 1) * P.BAR_DURATION
          = ((f j + 1 : ℤ) : ℚ) * P.BAR_DURATION := by rw [hup]
        _ ≤ ((b + 1 : ℤ) : ℚ) * P.BAR_DURATION := hmono _ _ (by omega)
        _ = ((b : ℚ) + 1) * P.BAR_DURATION := by push_cast; ring
  -- every bar-b note passes the filter
  have hKeep : ∀ n ∈ (composeBar P.rootNote P.scaleIntervals P.progression
      P.BEAT_DURATION P.BAR_DURATION s eRef b
      (composeBarsFold P s eRef ((List.range m').map f) (P.seedAfterSetup, 0, [])).1
      (composeBarsFold P s eRef ((List.range m').map f) (P.seedAfterSetup, 0, [])).2.1).2.2,
      pb n = true := by
    intro n hn
    obtain ⟨hlt, ⟨hlo, hhi⟩, _⟩ := composeBar_mem P.rootNote P.scaleIntervals P.progression
      P.BEAT_DURATION P.BAR_DURATION s eRef b _ _ (le_of_lt hBpos) n hn
    simp only [hpb, decide_eq_true_eq]
    refine ⟨hlo, ?_⟩
    have : (b : ℚ) * P.BAR_DURATION + (7/2) * P.BEAT_DURATION + 0.06 <
        ((b : ℚ) + 1) * P.BAR_DURATION := by
      rw [hBAR]; nlinarith
    linarith
  -- assemble
  have hnotes : composeNotes seed s e = List.mergeSort
      ((composeBarsFold P s e (composeBarRange P s e) (P.seedAfterSetup, 0, [])).2.2)
      (fun a b => a.start_time ≤ b.start_time) := rfl
  have hsB : s < ((b : ℚ) + 1) * P.BAR_DURATION := by
    calc s < ((sb : ℚ) + 1) * P.BAR_DURATION := hslt
      _ = ((sb + 1 : ℤ) : ℚ) * P.BAR_DURATION := by push_cast; ring
      _ ≤ ((b + 1 : ℤ) : ℚ) * P.BAR_DURATION := hmono _ _ (by omega)
      _ = ((b : ℚ) + 1) * P.BAR_DURATION := by push_cast; ring
  have key : ((composeBarsFold P s e (composeBarRange P s e)
      (P.seedAfterSetup, 0, [])).2.2.filter pb) =
      (composeBar P.rootNote P.scaleIntervals P.progression P.BEAT_DURATION
        P.BAR_DURATION s eRef b
        (composeBarsFold P s eRef ((List.range m').map f) (P.seedAfterSetup, 0, [])).1
        (composeBarsFold P s eRef ((List.range m').map f) (P.seedAfterSetup, 0, [])).2.1).2.2 := by
    rw [hsplit, composeBarsFold_append]
    rw [composeBarsFold_filter_out P s e pb _ _ hSuffix]
    rw [hpfx, composeBarsFold_append]
    rw [composeBarsFold_endTime_eq P s e eRef hBlo hBAR _ _ hAgnostic]
    simp only [composeBarsFold]
    rw [composeBar_endTime_eq P.rootNote P.scaleIntervals P.progression
      P.BEAT_DURATION P.BAR_DURATION s e eRef b _ _ hBlo hBAR hsB he (le_refl _)]
    rw [List.filter_append]
    have hinit : (composeBarsFold P s eRef ((List.range m').map f)
        (P.seedAfterSetup, 0, [])).2.2.filter pb = [] := by
      have hAg2 : ∀ bar ∈ (List.range m').map f,
          ∀ (sd : ℕ) (lmd : ℤ), ∀ n ∈ (composeBar P.rootNote P.scaleIntervals P.progression
            P.BEAT_DURATION P.BAR_DURATION s eRef bar sd lmd).2.2, pb n = false := by
        intro bar hbar sd lmd n hn
        rw [composeBar_endTime_eq P.rootNote P.scaleIntervals P.progression
          P.BEAT_DURATION P.BAR_DURATION s eRef e bar sd lmd hBlo hBAR
          (hAgnostic bar hbar).1 (hAgnostic bar hbar).2.2 (hAgnostic bar hbar).2.1] at hn
        exact hPfx bar hbar sd lmd n hn
      rw [composeBarsFold_filter_out P s eRef pb _ _ hAg2]
      rfl
    rw [hinit, List.nil_append]
    rw [List.filter_eq_self.mpr hKeep]
  rw [hnotes, ← key]
  exact (List.mergeSort_perm _ _).filter pb

/-- C1: corrected.  The unrestricted claim is refuted (see the counterexample
theorem): two windows with different start times disagree on the notes of a
shared bar, because the seed cursor consumed by earlier bars differs.  What
does hold is the following: two calls with the *same* `startTime` whose end
times both lie at or beyond the end of bar `b` emit, among the notes starting
inside bar `b`, the same multiset of NoteEvents (ids included). -/
theorem compose_shared_bar_agreement (seed : String) (s e1 e2 : ℚ) (b : ℤ)
    (hs : 0 ≤ s)
    (hsb : ⌊s / (composeParams seed).BAR_DURATION⌋ ≤ b)
    (he1 : ((b : ℚ) + 1) * (composeParams seed).BAR_DURATION ≤ e1)
    (he2 : ((b : ℚ) + 1) * (composeParams seed).BAR_DURATION ≤ e2) :
    ((composeNotes seed s e1).filter
        (fun n => decide ((b : ℚ) * (composeParams seed).BAR_DURATION ≤ n.start_time ∧
          n.start_time < ((b : ℚ) + 1) * (composeParams seed).BAR_DURATION))).Perm
      ((composeNotes seed s e2).filter
        (fun n => decide ((b : ℚ) * (composeParams seed).BAR_DURATION ≤ n.start_time ∧
          n.start_time < ((b : ℚ) + 1) * (composeParams seed).BAR_DURATION))) :=
  (compose_filter_bar_core seed s e1 b hsb he1).trans
    (compose_filter_bar_core seed s e2 b hsb he2).symm

theorem compose_shared_bar_agreement_witness :
    ((0 : ℚ) ≤ 0 ∧ ⌊(0 : ℚ) / (composeParams "a").BAR_DURATION⌋ ≤ 0 ∧
      ((0 : ℚ) + 1) * (composeParams "a").BAR_DURATION ≤ 40/9 ∧
      ((0 : ℚ) + 1) * (composeParams "a").BAR_DURATION ≤ 20/9) ∧
    ((composeNotes "a" 0 (40/9)).filter
        (fun n => decide ((0 : ℚ) * (composeParams "a").BAR_DURATION ≤ n.start_time ∧
          n.start_time < ((0 : ℚ) + 1) * (composeParams "a").BAR_DURATION))).Perm
      ((composeNotes "a" 0 (20/9)).filter
        (fun n => decide ((0 : ℚ) * (composeParams "a").BAR_DURATION ≤ n.start_time ∧
          n.start_time < ((0 : ℚ) + 1) * (composeParams "a").BAR_DURATION))) :=
  ⟨⟨le_refl 0, by decide, by decide, by decide⟩,
    compose_shared_bar_agreement "a" 0 (40/9) (20/9) 0 (le_refl 0)
      (by decide) (by decide) (by decide)⟩

/-- C1 counterexample: seed "a" has BAR_DURATION 20/9; the windows
`[0, 40/9)` and `[20/9, 40/9)` both contain bar 1 = `[20/9, 40/9)`, yet the
two calls do not even agree up to permutation on the musical content
(start, duration, pitch, velocity, confidence) of the bar-1 notes: the first
call's bar-0 processing consumes seed-cursor draws, so bar 1 is composed from
a different cursor position in the two calls. -/
theorem compose_bar_content_depends_on_window :
    ¬ (((composeNotes "a" 0 (40/9)).filter
          (fun n => decide ((20/9 : ℚ) ≤ n.start_time ∧ n.start_time < (40/9 : ℚ)))).map
        noteContent).Perm
      (((composeNotes "a" (20/9) (40/9)).filter
          (fun n => decide ((20/9 : ℚ) ≤ n.start_time ∧ n.start_time < (40/9 : ℚ)))).map
        noteContent) := by decide

theorem bassLayer_ids (rootNote : ℤ) (scaleIntervals : List ℤ) (BEAT BAR s e : ℚ)
    (bar chordDegree : ℤ) (seed : ℕ) :
    ((((if max s ((bar : ℚ) * BAR) < e then
        if getSeededRandom seed > (0.4 : ℚ) then
          if (bar : ℚ) * BAR + BEAT * 2 ≥ s ∧ (bar : ℚ) * BAR + BEAT * 2 < e then
            (seed + 2, [bassNote1 rootNote scaleIntervals BEAT ((bar : ℚ) * BAR) bar chordDegree,
              bassNote2 rootNote scaleIntervals BEAT ((bar : ℚ) * BAR) bar chordDegree (seed + 1)])
          else (seed + 1, [bassNote1 rootNote scaleIntervals BEAT ((bar : ℚ) * BAR) bar chordDegree])
        else (seed + 1, [bassNote1 rootNote scaleIntervals BEAT ((bar : ℚ) * BAR) bar chordDegree])
      else (seed, ([] : List NoteEvent))).2).map NoteEvent.id).Nodup) ∧
    ∀ x ∈ ((if max s ((bar : ℚ) * BAR) < e then
        if getSeededRandom seed > (0.4 : ℚ) then
          if (bar : ℚ) * BAR + BEAT * 2 ≥ s ∧ (bar : ℚ) * BAR + BEAT * 2 < e then
            (seed + 2, [bassNote1 rootNote scaleIntervals BEAT ((bar : ℚ) * BAR) bar chordDegree,
              bassNote2 rootNote scaleIntervals BEAT ((bar : ℚ) * BAR) bar chordDegree (seed + 1)])
          else (seed + 1, [bassNote1 rootNote scaleIntervals BEAT ((bar : ℚ) * BAR) bar chordDegree])
        else (seed + 1, [bassNote1 rootNote scaleIntervals BEAT ((bar : ℚ) * BAR) bar chordDegree])
      else (seed, ([] : List NoteEvent))).2).map NoteEvent.id,
      x = NoteId.bass bar 1 ∨ x = NoteId.bass bar 3 := by
  by_cases h1 : max s ((bar : ℚ) * BAR) < e
  · rw [if_pos h1]
    by_cases hv : getSeededRandom seed > (0.4 : ℚ)
    · rw [if_pos hv]
      by_cases hg3 : (bar : ℚ) * BAR + BEAT * 2 ≥ s ∧ (bar : ℚ) * BAR + BEAT * 2 < e
      · rw [if_pos hg3]
        constructor
        · simp [bassNote1, bassNote2]
        · intro x hx
          simp only [List.map_cons, List.map_nil, List.mem_cons, List.not_mem_nil,
            or_false, bassNote1, bassNote2] at hx
          rcases hx with rfl | rfl
          · exact Or.inl rfl
          · exact Or.inr rfl
      · rw [if_neg hg3]
        constructor
        · simp
        · intro x hx
          simp only [List.map_cons, List.map_nil, List.mem_cons, List.not_mem_nil,
            or_false, bassNote1] at hx
          subst hx
          exact Or.inl rfl
    · rw [if_neg hv]
      constructor
      · simp
      · intro x hx
        simp only [List.map_cons, List.map_nil, List.mem_cons, List.not_mem_nil,
          or_false, bassNote1] at hx
        subst hx
        exact Or.inl rfl
  · rw [if_neg h1]
    exact ⟨List.nodup_nil, fun x hx => absurd hx (by simp)⟩

theorem melodyLoop_ids_nodup (rootNote : ℤ) (scaleIntervals : List ℤ) (BEAT : ℚ)
    (s e barStart : ℚ) (bar chordDegree : ℤ) (isQuestion : Bool) (hB : 0 ≤ BEAT) :
    ∀ (fuel hb seed : ℕ) (lmd : ℤ),
      (((melodyLoop rootNote scaleIntervals BEAT s e barStart bar chordDegree isQuestion
        fuel hb seed lmd).2.2).map NoteEvent.id).Nodup := by
  intro fuel
  induction fuel with
  | zero => intro hb seed lmd; simp [melodyLoop]
  | succ fuel ih =>
    intro hb seed lmd
    rw [melodyLoop]
    by_cases hhb : hb < 8
    · rw [if_pos hhb]
      simp only []
      split <;> split <;>
        first
        | (simp only [List.map_cons]
           rw [List.nodup_cons]
           refine ⟨?_, ih _ _ _⟩
           intro hmem
           simp only [List.mem_map] at hmem
           obtain ⟨n, hn, hid⟩ := hmem
           obtain ⟨_, _, h, t, hid2, hle, _⟩ := melodyLoop_mem rootNote scaleIntervals BEAT
             s e barStart bar chordDegree isQuestion hB fuel _ _ _ n hn
           have h1 : 1 ≤ rollDurationHB (getSeededRandom seed) := one_le_rollDurationHB _
           rw [hid2] at hid
           simp only [melNote] at hid
           have h2 := (NoteId.mel.injEq _ _ _ _ _ _).mp hid
           omega)
        | exact ih _ _ _
    · rw [if_neg hhb]
      simp

theorem harmChord_ids_nodup (rootNote : ℤ) (scaleIntervals : List ℤ) (BEAT : ℚ)
    (s e barStart : ℚ) (bar chordDegree : ℤ) (intensity : ℚ) :
    (((harmChord rootNote scaleIntervals BEAT s e barStart bar chordDegree intensity).map
      NoteEvent.id)).Nodup := by
  unfold harmChord
  rw [show (([0, 2, 4] : List ℤ).enum) = [(0, 0), (1, 2), (2, 4)] from rfl]
  rw [List.map_filterMap]
  refine List.Pairwise.filterMap _ ?_
    (show ([(0, 0), (1, 2), (2, 4)] : List (ℕ × ℤ)).Pairwise (fun p q => p.1 ≠ q.1) by decide)
  intro p q hne x hx y hy
  have hshape : ∀ (r : ℕ × ℤ) (z : NoteId),
      z ∈ Option.map NoteEvent.id
        (if barStart + BEAT + (r.1 : ℚ) * 0.03 ≥ s ∧ barStart + BEAT + (r.1 : ℚ) * 0.03 < e then
          some { id := .harm bar r.1
                 start_time := barStart + BEAT + (r.1 : ℚ) * 0.03
                 duration := BEAT * 2
                 midi_pitch := some (getMidiPitch rootNote scaleIntervals (chordDegree + r.2) (-1))
                 velocity := 0.4 + intensity * 0.2
                 confidence := 0.85 }
        else none) → z = NoteId.harm bar r.1 := by
    intro r z hz
    split at hz
    · simp only [Option.map_some', Option.mem_def, Option.some.injEq] at hz
      exact hz.symm
    · simp at hz
  rw [hshape p x hx, hshape q y hy]
  simp only [ne_eq, NoteId.harm.injEq, not_and]
  intro _ h12
  exact hne h12



theorem harm_ite_ids_nodup (c : Prop) [Decidable c] (rootNote : ℤ) (scaleIntervals : List ℤ)
    (BEAT s e barStart : ℚ) (bar chordDegree : ℤ) (intensity : ℚ) :
    (((if c then harmChord rootNote scaleIntervals BEAT s e barStart bar chordDegree intensity
      else []).map NoteEvent.id)).Nodup := by
  split
  · exact harmChord_ids_nodup rootNote scaleIntervals BEAT s e barStart bar chordDegree intensity
  · simp

theorem harm_ite_shape (c : Prop) [Decidable c] (rootNote : ℤ) (scaleIntervals : List ℤ)
    (BEAT s e barStart : ℚ) (bar chordDegree : ℤ) (intensity : ℚ) (hB : 0 ≤ BEAT) :
    ∀ n ∈ (if c then harmChord rootNote scaleIntervals BEAT s e barStart bar chordDegree intensity
      else []), ∃ i : ℕ, n.id = NoteId.harm bar i := by
  intro n hn
  revert hn
  split
  · intro hn
    obtain ⟨_, _, i, hid, _⟩ := harmChord_mem rootNote scaleIntervals BEAT s e barStart bar
      chordDegree intensity hB n hn
    exact ⟨i, hid⟩
  · intro hn
    simp at hn

theorem composeBar_ids (rootNote : ℤ) (scaleIntervals progression : List ℤ)
    (BEAT BAR s e : ℚ) (bar : ℤ) (seed : ℕ) (lmd : ℤ) (hB : 0 ≤ BEAT) :
    (((composeBar rootNote scaleIntervals progression BEAT BAR s e bar seed lmd).2.2).map
      NoteEvent.id).Nodup ∧
    ∀ n ∈ (composeBar rootNote scaleIntervals progression BEAT BAR s e bar seed lmd).2.2,
      idBar n.id = bar := by
  obtain ⟨hbnd, hbsh⟩ := bassLayer_ids rootNote scaleIntervals BEAT BAR s e bar
    (progression.getD ((bar % 4).toNat) 0) seed
  constructor
  · unfold composeBar
    simp only [List.map_append]
    rw [List.nodup_append, List.nodup_append]
    refine ⟨⟨hbnd, harm_ite_ids_nodup _ rootNote scaleIntervals BEAT s e _ bar _ _, ?_⟩,
      melodyLoop_ids_nodup rootNote scaleIntervals BEAT s e _ bar _ _ hB 8 0 _ lmd, ?_⟩
    · -- bass ids disjoint from harmony ids
      intro x hx hmem
      simp only [List.mem_map] at hmem
      obtain ⟨n, hn, hid⟩ := hmem
      obtain ⟨i, hxi⟩ := harm_ite_shape _ rootNote scaleIntervals BEAT s e _ bar _ _ hB n hn
      rw [hxi] at hid
      rcases hbsh x hx with rfl | rfl <;> cases hid
    · -- bass and harmony ids disjoint from melody ids
      intro x hx hmem
      have hxsh : (x = NoteId.bass bar 1 ∨ x = NoteId.bass bar 3) ∨
          ∃ i : ℕ, x = NoteId.harm bar i := by
        rw [List.mem_append] at hx
        rcases hx with hx | hx
        · exact Or.inl (hbsh x hx)
        · right
          simp only [List.mem_map] at hx
          obtain ⟨n, hn, rfl⟩ := hx
          exact harm_ite_shape _ rootNote scaleIntervals BEAT s e _ bar _ _ hB n hn
      simp only [List.mem_map] at hmem
      obtain ⟨n, hn, hid⟩ := hmem
      obtain ⟨_, _, h, t, hid2, _, _⟩ := melodyLoop_mem rootNote scaleIntervals BEAT
        s e _ bar _ _ hB 8 0 _ lmd n hn
      rw [hid2] at hid
      rcases hxsh with (rfl | rfl) | ⟨i, rfl⟩ <;> cases hid
  · intro n hn
    unfold composeBar at hn
    simp only [List.mem_append] at hn
    rcases hn with (hb | hh) | hm
    · have hmm : n.id ∈ _ := List.mem_map_of_mem NoteEvent.id hb
      rcases hbsh n.id hmm with h | h <;> rw [h] <;> rfl
    · obtain ⟨i, hid⟩ := harm_ite_shape _ rootNote scaleIntervals BEAT s e _ bar _ _ hB n hh
      rw [hid]; rfl
    · obtain ⟨_, _, h, t, hid, _, _⟩ := melodyLoop_mem rootNote scaleIntervals BEAT
        s e _ bar _ _ hB 8 0 _ lmd n hm
      rw [hid]; rfl

theorem composeBarsFold_ids (P : ComposeParams) (s e : ℚ) (hB : 0 ≤ P.BEAT_DURATION) :
    ∀ (bars : List ℤ) (st : ℕ × ℤ × List NoteEvent),
      ((st.2.2.map NoteEvent.id).Nodup) →
      (∀ n ∈ st.2.2, ∀ bar ∈ bars, idBar n.id ≠ bar) →
      bars.Pairwise (· ≠ ·) →
      (((composeBarsFold P s e bars st).2.2).map NoteEvent.id).Nodup := by
  intro bars
  induction bars with
  | nil => intro st h _ _; exact h
  | cons b bs ih =>
    intro st hnd hdisj hpair
    rw [composeBarsFold]
    obtain ⟨hcnd, hcbar⟩ := composeBar_ids P.rootNote P.scaleIntervals P.progression
      P.BEAT_DURATION P.BAR_DURATION s e b st.1 st.2.1 hB
    apply ih
    · simp only [List.map_append]
      rw [List.nodup_append]
      refine ⟨hnd, hcnd, ?_⟩
      intro x hx hmem
      simp only [List.mem_map] at hx hmem
      obtain ⟨n1, hn1, hid1⟩ := hx
      obtain ⟨n2, hn2, hid2⟩ := hmem
      have h1 : idBar x ≠ b := by
        rw [← hid1]
        exact hdisj n1 hn1 b (List.mem_cons_self b bs)
      have h2 : idBar x = b := by
        rw [← hid2]
        exact hcbar n2 hn2
      exact h1 h2
    · intro n hn bar hbar
      simp only [List.mem_append] at hn
      rcases hn with hn | hn
      · exact hdisj n hn bar (List.mem_cons_of_mem b hbar)
      · rw [hcbar n hn]
        exact List.rel_of_pairwise_cons hpair hbar
    · exact hpair.tail

theorem composeNotes_sorted_ids (seed : String) (s e : ℚ) :
    (composeNotes seed s e).Pairwise (fun a b => a.start_time ≤ b.start_time) ∧
    ((composeNotes seed s e).map NoteEvent.id).Nodup := by
  obtain ⟨hBlo, hBhi, hBAR⟩ := composeParams_BEAT_bounds seed
  set P := composeParams seed with hP
  have hB : 0 ≤ P.BEAT_DURATION := le_trans (by norm_num) hBlo
  have hnotes : composeNotes seed s e = List.mergeSort
      ((composeBarsFold P s e (composeBarRange P s e) (P.seedAfterSetup, 0, [])).2.2)
      (fun a b => a.start_time ≤ b.start_time) := rfl
  constructor
  · rw [hnotes]
    have hsorted := @List.sorted_mergeSort NoteEvent
      (fun (a b : NoteEvent) => decide (a.start_time ≤ b.start_time))
      (fun a b c hab hbc => by
        simp only [decide_eq_true_eq] at hab hbc ⊢
        exact le_trans hab hbc)
      (fun a b => by
        simp only [Bool.or_eq_true, decide_eq_true_eq]
        exact le_total a.start_time b.start_time)
      ((composeBarsFold P s e (composeBarRange P s e) (P.seedAfterSetup, 0, [])).2.2)
    exact hsorted.imp (fun h => by simpa using h)
  · have hfold : (((composeBarsFold P s e (composeBarRange P s e)
        (P.seedAfterSetup, 0, [])).2.2).map NoteEvent.id).Nodup := by
      apply composeBarsFold_ids P s e hB
      · simp
      · intro n hn; simp at hn
      · unfold composeBarRange
        apply List.Nodup.map
        · intro a b hab
          simpa using hab
        · exact List.nodup_range _
    rw [hnotes]
    exact (((List.mergeSort_perm _ _).map NoteEvent.id).nodup_iff).mpr hfold

theorem enumFrom_snd_mem {α : Type} : ∀ (l : List α) (k : ℕ) (p : ℕ × α),
    p ∈ l.enumFrom k → p.2 ∈ l := by
  intro l
  induction l with
  | nil => intro k p hp; simp [List.enumFrom] at hp
  | cons a l ih =>
    intro k p hp
    rw [List.enumFrom_cons] at hp
    rcases List.mem_cons.mp hp with rfl | hp
    · exact List.mem_cons_self a l
    · exact List.mem_cons_of_mem a (ih (k + 1) p hp)

theorem enumFrom_fst_ge {α : Type} : ∀ (l : List α) (k : ℕ) (p : ℕ × α),
    p ∈ l.enumFrom k → k ≤ p.1 := by
  intro l
  induction l with
  | nil => intro k p hp; simp [List.enumFrom] at hp
  | cons a l ih =>
    intro k p hp
    rw [List.enumFrom_cons] at hp
    rcases List.mem_cons.mp hp with rfl | hp
    · exact le_refl k
    · exact le_trans (Nat.le_succ k) (ih (k + 1) p hp)

theorem enumFrom_pairwise {α : Type} {R : α → α → Prop} : ∀ (l : List α) (k : ℕ),
    l.Pairwise R →
    (l.enumFrom k).Pairwise (fun p q => p.1 < q.1 ∧ R p.2 q.2) := by
  intro l
  induction l with
  | nil => intro k _; simp [List.enumFrom]
  | cons a l ih =>
    intro k hl
    rw [List.enumFrom_cons]
    refine List.Pairwise.cons ?_ (ih (k + 1) hl.tail)
    intro p hp
    refine ⟨lt_of_lt_of_le (Nat.lt_succ_self k) (enumFrom_fst_ge l (k + 1) p hp), ?_⟩
    exact List.rel_of_pairwise_cons hl (enumFrom_snd_mem l (k + 1) p hp)

theorem segStep_inv (rate t : ℚ) (hrate : 0 < rate) (m : ℤ) (i : ℕ) (c : List ℚ)
    (st : SegState) (hm : m ≤ (i : ℤ)) (h : segInv rate t m st) :
    segInv rate t (i : ℤ) (segStep rate t st i c) := by
  obtain ⟨cns, pitch, frames, raw⟩ := st
  obtain ⟨hsort, hbound, hopen⟩ := h
  simp only [] at hsort hbound hopen
  have hdiv : ∀ a b : ℤ, a ≤ b → (a : ℚ) / rate ≤ (b : ℚ) / rate := by
    intro a b hab
    have : (a : ℚ) ≤ (b : ℚ) := by exact_mod_cast hab
    gcongr
  have hbound' : ∀ n ∈ raw, n.start ≤ t + (i : ℚ) / rate := by
    intro n hn
    have := hbound n hn
    have h2 := hdiv m i hm
    push_cast at h2 ⊢
    linarith
  unfold segStep
  by_cases hrms : rmsBelow c (0.02 : ℚ) = true
  · rw [if_pos hrms]
    by_cases hcns : cns ≠ -1
    · rw [if_pos hcns]
      obtain ⟨hge, hle, hall⟩ := hopen hcns
      refine ⟨?_, ?_, ?_⟩
      · -- sorted
        simp only []
        split
        · refine List.pairwise_append.mpr ⟨hsort, by simp, ?_⟩
          intro a ha b hb
          simp only [List.mem_singleton] at hb
          subst hb
          exact hall a ha
        · exact hsort
      · -- bound at i
        simp only []
        split
        · intro n hn
          rw [List.mem_append] at hn
          rcases hn with hn | hn
          · exact hbound' n hn
          · simp only [List.mem_singleton] at hn
            subst hn
            simp only []
            have := hdiv cns i (le_trans hle hm)
            linarith
        · exact hbound'
      · intro hfalse
        simp at hfalse
    · rw [if_neg hcns]
      refine ⟨hsort, hbound', ?_⟩
      intro hne
      simp only [] at hne
      push_neg at hcns
      exact absurd hcns hne
  · rw [if_neg hrms]
    unfold segStepVoiced
    by_cases hv : acVoiced (autoCorrelate c rate) = true
    · rw [if_pos hv]
      by_cases hcns : cns = -1
      · rw [if_pos hcns]
        refine ⟨hsort, hbound', ?_⟩
        intro _
        refine ⟨by positivity, le_refl _, ?_⟩
        simpa using hbound'
      · rw [if_neg hcns]
        obtain ⟨hge, hle, hall⟩ := hopen hcns
        have hallI : ∀ n ∈ raw, n.start ≤ t + ((i : ℤ) : ℚ) / rate := by
          intro n hn
          have h1 := hall n hn
          have h2 := hdiv cns i (le_trans hle hm)
          push_cast at h2 ⊢
          linarith
        split
        · -- pitch jump: close (maybe) and reopen at i
          refine ⟨?_, ?_, ?_⟩
          · simp only []
            split
            · refine List.pairwise_append.mpr ⟨hsort, by simp, ?_⟩
              intro a ha b hb
              simp only [List.mem_singleton] at hb
              subst hb
              exact hall a ha
            · exact hsort
          · simp only []
            split
            · intro n hn
              rw [List.mem_append] at hn
              rcases hn with hn | hn
              · exact hbound' n hn
              · simp only [List.mem_singleton] at hn
                subst hn
                simp only []
                have := hdiv cns i (le_trans hle hm)
                linarith
            · exact hbound'
          · intro _
            refine ⟨by positivity, le_refl _, ?_⟩
            simp only []
            split
            · intro n hn
              rw [List.mem_append] at hn
              rcases hn with hn | hn
              · exact hallI n hn
              · simp only [List.mem_singleton] at hn
                subst hn
                simp only []
                have h9 := hdiv cns i (le_trans hle hm)
                push_cast at h9 ⊢
                linarith
            · exact hallI
        · -- stable frame: extend
          refine ⟨hsort, hbound', ?_⟩
          intro _
          exact ⟨hge, le_trans hle hm, hall⟩
    · rw [if_neg hv]
      refine ⟨hsort, hbound', ?_⟩
      intro hne
      obtain ⟨hge, hle, hall⟩ := hopen hne
      exact ⟨hge, le_trans hle hm, fun n hn => by
        have := hall n hn
        linarith⟩

theorem segFold_inv (rate t : ℚ) (hrate : 0 < rate) :
    ∀ (ps : List (ℕ × List ℚ)) (m : ℤ) (st : SegState),
      segInv rate t m st →
      (∀ p ∈ ps, m ≤ ((p.1 : ℕ) : ℤ)) →
      ps.Pairwise (fun p q => p.1 ≤ q.1) →
      ∃ m' : ℤ, m ≤ m' ∧
        segInv rate t m' (ps.foldl (fun st p => segStep rate t st p.1 p.2) st) := by
  intro ps
  induction ps with
  | nil => intro m st h _ _; exact ⟨m, le_refl m, h⟩
  | cons p ps ih =>
    intro m st h hall hpair
    rw [List.foldl_cons]
    have hstep := segStep_inv rate t hrate m p.1 p.2 st
      (hall p (List.mem_cons_self p ps)) h
    obtain ⟨m', hm', hinv⟩ := ih ((p.1 : ℕ) : ℤ) _ hstep
      (fun q hq => by exact_mod_cast List.rel_of_pairwise_cons hpair hq)
      hpair.tail
    exact ⟨m', le_trans (hall p (List.mem_cons_self p ps)) hm', hinv⟩

theorem detectNotes_sorted_ids (buf : List ℚ) (rate t d : ℚ) (hrate : 0 < rate) :
    (detectNotes buf rate t d).Pairwise (fun a b => a.start_time ≤ b.start_time) ∧
    ((detectNotes buf rate t d).map NoteEvent.id).Nodup := by
  have hwin : (sweepChunks buf rate t d).Pairwise (fun p q => p.1 ≤ q.1) := by
    unfold sweepChunks windowStarts
    apply List.Pairwise.map
    · intro a b (hab : a ≤ b)
      exact hab
    · apply List.Pairwise.map
      · intro a b (hab : a ≤ b)
        exact Nat.mul_le_mul_right 1024 hab
      · exact List.pairwise_le_range _
  obtain ⟨m', hm', hinv⟩ := segFold_inv rate t hrate (sweepChunks buf rate t d) 0 initSegState
    (by refine ⟨by simp [initSegState], by simp [initSegState], fun hne => absurd rfl hne⟩)
    (fun p _ => Int.natCast_nonneg p.1)
    hwin
  obtain ⟨hsort, hbound, hopen⟩ := hinv
  unfold detectNotes analyzeAudioSegment
  set F := (sweepChunks buf rate t d).foldl (fun st p => segStep rate t st p.1 p.2) initSegState
    with hF
  have hrawAll : (if F.currentNoteStart ≠ -1 ∧ F.framesInNote > 4 then
      F.rawNotes ++ [⟨t + (F.currentNoteStart : ℚ) / rate,
        (((segmentSlice buf rate t d).length : ℚ) - (F.currentNoteStart : ℚ)) / rate,
        F.currentNotePitch, 0.85⟩]
      else F.rawNotes).Pairwise (fun a b => a.start ≤ b.start) := by
    split
    · rename_i hcl
      refine List.pairwise_append.mpr ⟨hsort, by simp, ?_⟩
      intro a ha b hb
      simp only [List.mem_singleton] at hb
      subst hb
      exact (hopen hcl.1).2.2 a ha
    · exact hsort
  constructor
  · simp only []
    rw [List.pairwise_map]
    have := enumFrom_pairwise _ 0 hrawAll
    exact this.imp (fun h => h.2)
  · simp only []
    rw [List.map_map]
    apply List.Pairwise.map _ _ (enumFrom_pairwise _ 0 hrawAll)
    intro p q hpq
    intro heq
    simp only [Function.comp] at heq
    have := (NoteId.real.injEq _ _ _ _).mp heq
    omega

/-- C6: every single call of either producer returns a list sorted
non-decreasingly by `start_time` whose id strings are pairwise distinct.
For the composition engine the final `mergeSort` gives sortedness and the ids
are distinct because every note id carries its bar number, bars are processed
once each, and within a bar the two bass slots, the three harmony indices and
the strictly increasing melody half-beats separate the ids.  For the analytic
segmenter (with a positive sample rate) the sweep keeps the pushed notes
sorted and every note of an open window starts no earlier than the already
pushed ones, and the output ids embed the position in the final array. -/
theorem producers_sorted_and_ids_unique (seed : String) (s e : ℚ)
    (buf : List ℚ) (rate t d : ℚ) (hrate : 0 < rate) :
    ((composeNotes seed s e).Pairwise (fun a b => a.start_time ≤ b.start_time) ∧
      ((composeNotes seed s e).map NoteEvent.id).Nodup) ∧
    ((detectNotes buf rate t d).Pairwise (fun a b => a.start_time ≤ b.start_time) ∧
      ((detectNotes buf rate t d).map NoteEvent.id).Nodup) :=
  ⟨composeNotes_sorted_ids seed s e, detectNotes_sorted_ids buf rate t d hrate⟩

theorem producers_sorted_and_ids_unique_witness :
    (0 : ℚ) < 1 ∧
    (((composeNotes "a" 0 (5/2)).Pairwise (fun a b => a.start_time ≤ b.start_time) ∧
      ((composeNotes "a" 0 (5/2)).map NoteEvent.id).Nodup) ∧
    ((detectNotes [] 1 0 0).Pairwise (fun a b => a.start_time ≤ b.start_time) ∧
      ((detectNotes [] 1 0 0).map NoteEvent.id).Nodup)) :=
  ⟨by norm_num, producers_sorted_and_ids_unique "a" 0 (5/2) [] 1 0 0 (by norm_num)⟩

theorem composeBar_empty_of_le (rootNote : ℤ) (scaleIntervals progression : List ℤ)
    (BEAT BAR s e : ℚ) (bar : ℤ) (seed : ℕ) (lmd : ℤ)
    (hB : 0 ≤ BEAT) (he : e ≤ s) :
    (composeBar rootNote scaleIntervals progression BEAT BAR s e bar seed lmd).2.2 = [] := by
  rw [List.eq_nil_iff_forall_not_mem]
  intro n hn
  unfold composeBar at hn
  simp only [List.mem_append] at hn
  rcases hn with (hb | hh) | hm
  · revert hb
    rw [if_neg (not_lt.mpr (le_trans he (le_max_left s ((bar : ℚ) * BAR))))]
    simp
  · obtain ⟨he', _, hs'⟩ := harmLayer_mem rootNote scaleIntervals BEAT BAR s e bar _ _ hB n hh
    linarith
  · obtain ⟨⟨hs', he'⟩, _⟩ := melodyLoop_mem rootNote scaleIntervals BEAT s e _ bar _ _ hB
      8 0 _ lmd n hm
    linarith

theorem composeBarsFold_empty_of_le (P : ComposeParams) (s e : ℚ)
    (hB : 0 ≤ P.BEAT_DURATION) (he : e ≤ s) :
    ∀ (bars : List ℤ) (st : ℕ × ℤ × List NoteEvent),
      (composeBarsFold P s e bars st).2.2 = st.2.2 := by
  intro bars
  induction bars with
  | nil => intro st; rfl
  | cons b bs ih =>
    intro st
    rw [composeBarsFold, ih]
    simp only []
    rw [composeBar_empty_of_le P.rootNote P.scaleIntervals P.progression P.BEAT_DURATION
      P.BAR_DURATION s e b st.1 st.2.1 hB he]
    exact List.append_nil _

theorem composeNotes_empty_of_le (seed : String) (s e : ℚ) (he : e ≤ s) :
    composeNotes seed s e = [] := by
  obtain ⟨hBlo, _, _⟩ := composeParams_BEAT_bounds seed
  have hB : 0 ≤ (composeParams seed).BEAT_DURATION := le_trans (by norm_num) hBlo
  have heq : composeNotes seed s e = List.mergeSort
      ((composeBarsFold (composeParams seed) s e
        (composeBarRange (composeParams seed) s e)
        ((composeParams seed).seedAfterSetup, 0, [])).2.2)
      (fun a b => a.start_time ≤ b.start_time) := rfl
  rw [heq, composeBarsFold_empty_of_le (composeParams seed) s e hB he]
  rfl

/-- C8: code bug on the analytic half; the compositional half holds.
`composeNotes` with `endTime ≤ startTime` returns `[]`: every bass, harmony
and melody emission guard demands a time at or after `startTime` and strictly
before `endTime`, which is unsatisfiable (and the bass guard
`max(startTime, barStart) < endTime` fails outright).  `detectNotes` with the
strictly negative requested duration `-(1/900240)` on a constant buffer of
7169 half-amplitude samples at sample rate 900240, however, returns a
non-empty list: the computed end sample is `-1`, which JavaScript
`Array.prototype.slice` interprets relative to the end of the buffer; the
resulting 7168-sample slice holds five voiced analysis windows (RMS `1/2`,
pitch exactly 440 Hz), and the final forced close emits one note. -/
theorem malformed_range_empty_refuted :
    (∀ (seed : String) (s e : ℚ), e ≤ s → composeNotes seed s e = []) ∧
    ((-(1/900240) : ℚ) < 0 ∧
      detectNotes (List.replicate 7169 (1/2 : ℚ)) 900240 0 (-(1/900240)) ≠ []) := by
  refine ⟨composeNotes_empty_of_le, by norm_num, ?_⟩
  unfold detectNotes analyzeAudioSegment
  simp only [segmentSlice_neg_case, sweepChunks_neg_case, segFold_neg_case,
    List.length_replicate]
  rw [if_pos (by norm_num : ((0 : ℕ) : ℤ) ≠ -1 ∧ (5 : ℕ) > 4)]
  simp

theorem malformed_range_empty_refuted_witness :
    ((1 : ℚ) ≤ 1 ∧ composeNotes "a" 1 1 = []) ∧
    ((-(1/900240) : ℚ) < 0 ∧
      detectNotes (List.replicate 7169 (1/2 : ℚ)) 900240 0 (-(1/900240)) ≠ []) :=
  ⟨⟨le_refl 1, malformed_range_empty_refuted.1 "a" 1 1 (le_refl 1)⟩,
    malformed_range_empty_refuted.2⟩
